import Mathlib

/-!
Verification development for the daplug-ddb DynamoDB adapter.

Shallow embedding of `daplug_ddb/prefixer.py`, `daplug_ddb/adapter.py` and
`daplug_ddb/common/base_adapter.py`.  Python dict values are modelled by the
inductive `Value`; records (Python dicts) by ordered association lists.  The
store client, schema mapper, record merge and timestamp parsing are external
collaborators (per spec sections 1 and 6) and enter as function parameters.
-/

namespace DaplugDdb

/-- Model of a Python value as stored in a DynamoDB record: `null` is Python
`None`; lists and nested dicts are structural. -/
inductive Value where
  | null : Value
  | bool : Bool → Value
  | int : Int → Value
  | str : String → Value
  | list : List Value → Value
  | dict : List (String × Value) → Value

mutual

/-- Structural decidable equality on `Value` (the derive handler does not
support nested inductives). -/
def Value.decEq : (a b : Value) → Decidable (a = b)
  | .null, .null => isTrue rfl
  | .bool x, .bool y =>
      if h : x = y then isTrue (by rw [h]) else isFalse (fun he => h (Value.bool.inj he))
  | .int x, .int y =>
      if h : x = y then isTrue (by rw [h]) else isFalse (fun he => h (Value.int.inj he))
  | .str x, .str y =>
      if h : x = y then isTrue (by rw [h]) else isFalse (fun he => h (Value.str.inj he))
  | .list xs, .list ys =>
      match Value.decEqList xs ys with
      | isTrue h => isTrue (by rw [h])
      | isFalse h => isFalse (fun he => h (Value.list.inj he))
  | .dict xs, .dict ys =>
      match Value.decEqDict xs ys with
      | isTrue h => isTrue (by rw [h])
      | isFalse h => isFalse (fun he => h (Value.dict.inj he))
  | .null, .bool _ => isFalse (fun h => Value.noConfusion h)
  | .null, .int _ => isFalse (fun h => Value.noConfusion h)
  | .null, .str _ => isFalse (fun h => Value.noConfusion h)
  | .null, .list _ => isFalse (fun h => Value.noConfusion h)
  | .null, .dict _ => isFalse (fun h => Value.noConfusion h)
  | .bool _, .null => isFalse (fun h => Value.noConfusion h)
  | .bool _, .int _ => isFalse (fun h => Value.noConfusion h)
  | .bool _, .str _ => isFalse (fun h => Value.noConfusion h)
  | .bool _, .list _ => isFalse (fun h => Value.noConfusion h)
  | .bool _, .dict _ => isFalse (fun h => Value.noConfusion h)
  | .int _, .null => isFalse (fun h => Value.noConfusion h)
  | .int _, .bool _ => isFalse (fun h => Value.noConfusion h)
  | .int _, .str _ => isFalse (fun h => Value.noConfusion h)
  | .int _, .list _ => isFalse (fun h => Value.noConfusion h)
  | .int _, .dict _ => isFalse (fun h => Value.noConfusion h)
  | .str _, .null => isFalse (fun h => Value.noConfusion h)
  | .str _, .bool _ => isFalse (fun h => Value.noConfusion h)
  | .str _, .int _ => isFalse (fun h => Value.noConfusion h)
  | .str _, .list _ => isFalse (fun h => Value.noConfusion h)
  | .str _, .dict _ => isFalse (fun h => Value.noConfusion h)
  | .list _, .null => isFalse (fun h => Value.noConfusion h)
  | .list _, .bool _ => isFalse (fun h => Value.noConfusion h)
  | .list _, .int _ => isFalse (fun h => Value.noConfusion h)
  | .list _, .str _ => isFalse (fun h => Value.noConfusion h)
  | .list _, .dict _ => isFalse (fun h => Value.noConfusion h)
  | .dict _, .null => isFalse (fun h => Value.noConfusion h)
  | .dict _, .bool _ => isFalse (fun h => Value.noConfusion h)
  | .dict _, .int _ => isFalse (fun h => Value.noConfusion h)
  | .dict _, .str _ => isFalse (fun h => Value.noConfusion h)
  | .dict _, .list _ => isFalse (fun h => Value.noConfusion h)

/-- Decidable equality on lists of values. -/
def Value.decEqList : (xs ys : List Value) → Decidable (xs = ys)
  | [], [] => isTrue rfl
  | [], _ :: _ => isFalse (fun h => List.noConfusion h)
  | _ :: _, [] => isFalse (fun h => List.noConfusion h)
  | x :: xs, y :: ys =>
      match Value.decEq x y with
      | isFalse h1 => isFalse (by intro he; injection he with ha hb; exact h1 ha)
      | isTrue h1 =>
          match Value.decEqList xs ys with
          | isTrue h2 => isTrue (by rw [h1, h2])
          | isFalse h2 => isFalse (by intro he; injection he with ha hb; exact h2 hb)

/-- Decidable equality on string-keyed association lists of values. -/
def Value.decEqDict : (xs ys : List (String × Value)) → Decidable (xs = ys)
  | [], [] => isTrue rfl
  | [], _ :: _ => isFalse (fun h => List.noConfusion h)
  | _ :: _, [] => isFalse (fun h => List.noConfusion h)
  | (k1, v1) :: xs, (k2, v2) :: ys =>
      if hk : k1 = k2 then
        match Value.decEq v1 v2 with
        | isFalse h1 =>
            isFalse (by
              intro he
              injection he with ha hb
              exact h1 (congrArg Prod.snd ha))
        | isTrue h1 =>
            match Value.decEqDict xs ys with
            | isTrue h2 => isTrue (by rw [hk, h1, h2])
            | isFalse h2 => isFalse (by intro he; injection he with ha hb; exact h2 hb)
      else
        isFalse (by
          intro he
          injection he with ha hb
          exact hk (congrArg Prod.fst ha))

end

instance : DecidableEq Value := Value.decEq

/-- A record: a Python dict as an ordered association list (insertion order,
first binding wins on lookup, matching dict semantics). -/
abbrev Item := List (String × Value)

/-- Python `d.get(k)` at the raw binding level: first binding for `k`. -/
def lookup : Item → String → Option Value
  | [], _ => none
  | (k', v) :: t, k => if k' = k then some v else lookup t k

/-- Python `d[k] = v` for a key already present: replace the first binding,
keeping its position (dict insertion-order semantics). -/
def setKey : Item → String → Value → Item
  | [], _, _ => []
  | (k', v') :: t, k, v => if k' = k then (k, v) :: t else (k', v') :: setKey t k v

/-- Python `k in d`. -/
def containsKey : Item → String → Bool
  | [], _ => false
  | (k', _) :: t, k => (k' == k) || containsKey t k

/-- Python `d.get(k)` as seen by `is None` tests: a stored `None` and an
absent key are both Python `None`. -/
def getNone (i : Item) (k : String) : Option Value :=
  match lookup i k with
  | some .null => none
  | some v => some v
  | none => none

/-- Python `d.get(k)` where `k` itself may be `None` (`dict.get(None)` is
`None` since keys are strings). -/
def optGet (i : Item) (k : Option String) : Option Value :=
  match k with
  | some key => getNone i key
  | none => none

/-- Python `s.startswith(p)` (character-list view of `str`). -/
def strStartsWith (s p : String) : Bool :=
  p.data.isPrefixOf s.data

/-- Python `s[n:]` (character-list view of `str`). -/
def strDrop (s : String) (n : Nat) : String :=
  ⟨s.data.drop n⟩

/-- Configuration of `DynamodbPrefixer` (`prefixer.py`): the `*_pfx` fields
render the source's hash/range prefix attributes. -/
structure DynamodbPrefixer where
  hash_key : Option String := none
  hash_pfx : Option String := none
  range_key : Option String := none
  range_pfx : Option String := none
deriving DecidableEq

/-- Core of `DynamodbPrefixer.__apply_prefix` for one concrete key/prefix
pair: only string values are touched; add prepends unless the value already
starts with the prefix; remove strips the prefix when present. -/
def applyKey (i : Item) (k p : String) (add : Bool) : Item :=
  match lookup i k with
  | some (.str s) =>
      if add then
        if strStartsWith s p then i else setKey i k (.str (p ++ s))
      else
        if strStartsWith s p then setKey i k (.str (strDrop s p.length)) else i
  | _ => i

/-- `DynamodbPrefixer.__apply_prefix`: inert when either half of the pair is
missing or empty (Python truthiness of `None` and `""`). -/
def applyPfx (i : Item) (kOpt pOpt : Option String) (add : Bool) : Item :=
  match kOpt, pOpt with
  | some k, some p => if k = "" ∨ p = "" then i else applyKey i k p add
  | _, _ => i

/-- `DynamodbPrefixer.__process_item`: hash pair first, then range pair. -/
def processItem (pfx : DynamodbPrefixer) (add : Bool) (i : Item) : Item :=
  applyPfx (applyPfx i pfx.hash_key pfx.hash_pfx add) pfx.range_key pfx.range_pfx add

/-- Element-wise treatment of a list (`__process` list branch): dict elements
are processed, non-dict elements pass through. -/
def mapProcessItems (pfx : DynamodbPrefixer) (add : Bool) (l : List Value) : List Value :=
  l.map (fun v => match v with
    | .dict i => .dict (processItem pfx add i)
    | x => x)

/-- Transform applied to the value of a wrapper child key holding a list
(`processed["Items"]`); `none` when the value does not have the list shape. -/
def trItems (pfx : DynamodbPrefixer) (add : Bool) : Value → Option Value
  | .list l => some (.list (mapProcessItems pfx add l))
  | _ => none

/-- Transform applied to the value of a wrapper child key holding a dict
(`Item` / `LastEvaluatedKey` / `Key`); `none` on any other shape. -/
def trItem (pfx : DynamodbPrefixer) (add : Bool) : Value → Option Value
  | .dict i => some (.dict (processItem pfx add i))
  | _ => none

/-- One in-place wrapper rewrite `processed[k] = tr(processed[k])`, a no-op
when the key is absent or the value has the wrong shape. -/
def touch (k : String) (tr : Value → Option Value) (d : Item) : Item :=
  match lookup d k with
  | some v =>
      match tr v with
      | some v' => setKey d k v'
      | none => d
  | none => d

/-- The four wrapper rewrites of `DynamodbPrefixer.__process` on a dict, in
source order: `Items`, `Item`, `LastEvaluatedKey`, `Key`. -/
def processTop (pfx : DynamodbPrefixer) (add : Bool) (d : Item) : Item :=
  touch "Key" (trItem pfx add)
    (touch "LastEvaluatedKey" (trItem pfx add)
      (touch "Item" (trItem pfx add)
        (touch "Items" (trItems pfx add) d)))

/-- Presence test of `__process`: `any(k in processed for k in (...))`. -/
def hasWrapperKey (d : Item) : Bool :=
  containsKey d "Items" || containsKey d "Item" ||
    containsKey d "LastEvaluatedKey" || containsKey d "Key"

/-- `DynamodbPrefixer.__process`: lists element-wise; dicts get the wrapper
rewrites and, when no wrapper key is present, are treated as a single record;
all other values pass through. -/
def process (pfx : DynamodbPrefixer) (add : Bool) : Value → Value
  | .list l => .list (mapProcessItems pfx add l)
  | .dict d =>
      if hasWrapperKey (processTop pfx add d) then .dict (processTop pfx add d)
      else .dict (processItem pfx add (processTop pfx add d))
  | v => v

/-- `DynamodbPrefixer.add_prefix` (the `None` input short-circuit coincides
with the pass-through of non-container values). -/
def prefixAdd (pfx : DynamodbPrefixer) (v : Value) : Value :=
  process pfx true v

/-- `DynamodbPrefixer.remove_prefix`. -/
def prefixRemove (pfx : DynamodbPrefixer) (v : Value) : Value :=
  process pfx false v

/-- Error taxonomy of the adapter, mapping the exceptions raised by
`adapter.py`: `noDataFound` is the `ValueError` of `__get_original_data`;
`missingIdempotenceValue` and `idempotenceConflict` the two `ValueError`s of
`__build_put_kwargs`; `invalidIdempotenceValue` the `ValueError` of
`__should_use_latest`; `batchItem` is `BatchItemException`. -/
inductive DdbError where
  | noDataFound : DdbError
  | missingIdempotenceValue : String → DdbError
  | idempotenceConflict : DdbError
  | invalidIdempotenceValue : DdbError
  | batchItem : DdbError
deriving DecidableEq

/-- A DynamoDB `ConditionExpression` as built by the adapter:
`Attr(name).eq(v)` on the update path. -/
inductive PutCond where
  | attrEq : String → Value → PutCond
deriving DecidableEq

/-- The keyword arguments of a `table.put_item` call on the update path. -/
structure PutKwargs where
  item : Item
  cond : Option PutCond
deriving DecidableEq

/-- A change event handed to the notification sink, with a delivery flag
recording whether the sink succeeded. -/
structure SinkEvent where
  op : String
  record : Item
  delivered : Bool
deriving DecidableEq

/-- Adapter configuration relevant to the modelled operations
(`DynamodbAdapter.__init__`). -/
structure DynamodbAdapter where
  identifier : String := ""
  idempotence_key : Option String := none
  raise_idempotence_error : Bool := false
  idempotence_use_latest : Bool := false
deriving DecidableEq

/-- Python truthiness of the `idempotence_key` attribute: `None` and the
empty string are falsy. -/
def keyTruthy : Option String → Bool
  | none => false
  | some k => !(k == "")

/-- Python `str()` on a value. Scalar renderings follow Python; container
renderings are abbreviated, which is inconsequential because the adapter
only passes the result to the abstract timestamp-parse parameter. -/
def pyStr : Value → String
  | .null => "None"
  | .bool b => if b then "True" else "False"
  | .int n => toString n
  | .str s => s
  | .list _ => "[...]"
  | .dict _ => "[...]"

/-- `DynamodbAdapter.__should_use_latest`.  `parse` stands for
`datetime.fromisoformat`, an external library function; parsed timestamps
are compared as integers. -/
def should_use_latest (a : DynamodbAdapter) (parse : String → Option Int)
    (original_value new_value : Option Value) : Except DdbError Bool :=
  if a.idempotence_use_latest = false ∨ keyTruthy a.idempotence_key = false then
    .ok false
  else if original_value = none ∨ new_value = none then
    .ok false
  else
    match original_value, new_value with
    | some o, some n =>
        match parse (pyStr o), parse (pyStr n) with
        | some od, some nd => .ok (decide (od > nd))
        | _, _ => .error .invalidIdempotenceValue
    | _, _ => .ok false

/-- `DynamodbAdapter.__build_put_kwargs`. -/
def build_put_kwargs (a : DynamodbAdapter) (original_value : Option Value)
    (data_to_store : Item) : Except DdbError PutKwargs :=
  match a.idempotence_key with
  | none => .ok ⟨data_to_store, none⟩
  | some k =>
      if k = "" then .ok ⟨data_to_store, none⟩
      else
        match original_value with
        | none =>
            if a.raise_idempotence_error then .error (.missingIdempotenceValue k)
            else .ok ⟨data_to_store, none⟩
        | some o =>
            if some o ≠ getNone data_to_store k ∧ a.raise_idempotence_error = true then
              .error .idempotenceConflict
            else
              .ok ⟨data_to_store, some (.attrEq k o)⟩

/-- `DynamodbAdapter.__clean_for_response`. -/
def cleanForResponse (pfx : DynamodbPrefixer) (item : Item) : Item :=
  match prefixRemove pfx (.dict item) with
  | .dict d => d
  | _ => item

/-- The `stored_item` of `DynamodbAdapter.update` (the non-dict fallback of
the source is kept although `process` always returns a dict on dicts). -/
def updateStored (pfx : DynamodbPrefixer) (payload : Item) : Item :=
  match prefixAdd pfx (.dict payload) with
  | .dict d => d
  | _ => payload

/-- The `response_template` of `DynamodbAdapter.update`. -/
def updateResponse (pfx : DynamodbPrefixer) (payload : Item) : Item :=
  match prefixAdd pfx (.dict payload) with
  | .dict d =>
      match prefixRemove pfx (.dict d) with
      | .dict r => r
      | _ => payload
  | _ => payload

/-- Modelled from the spec: `common/publisher.py` is not under `src/`.  Per
spec section 6 the notification sink is "best-effort, errors do not propagate
as write failures", so publishing records the attempt (with the sink's
success as the `delivered` flag) and never raises. -/
def publishSink (sinkOk : Bool) (op : String) (rec : Item) : SinkEvent :=
  ⟨op, rec, sinkOk⟩

/-- Outcome of a successful `update` call: the returned record, the
`put_item` calls issued, and the change events handed to the sink. -/
structure UpdateOutcome where
  result : Item
  puts : List PutKwargs
  events : List SinkEvent
deriving DecidableEq

/-- `DynamodbAdapter.update`.  External collaborators enter as parameters:
`parse` for `datetime.fromisoformat`, `mergeFn` for `common.merge`,
`schemaMap` for `common.map_to_schema` (with the `deepcopy` default),
`sinkOk` for the sink's behaviour, and `original_data` for the record the
store returned to `__get_original_data` (whose emptiness check is the first
step here). -/
def update (a : DynamodbAdapter) (pfx : DynamodbPrefixer)
    (parse : String → Option Int) (mergeFn : Item → Item → Item)
    (schemaMap : Item → Item) (sinkOk : Bool)
    (original_data callData : Item) : Except DdbError UpdateOutcome :=
  if original_data = [] then .error .noDataFound
  else
    match should_use_latest a parse (optGet original_data a.idempotence_key)
        (optGet (updateResponse pfx (schemaMap (mergeFn original_data callData)))
          a.idempotence_key) with
    | .error e => .error e
    | .ok true => .ok ⟨cleanForResponse pfx original_data, [], []⟩
    | .ok false =>
        match build_put_kwargs a (optGet original_data a.idempotence_key)
            (updateStored pfx (schemaMap (mergeFn original_data callData))) with
        | .error e => .error e
        | .ok pk =>
            .ok ⟨cleanForResponse pfx (updateStored pfx (schemaMap (mergeFn original_data callData))),
              [pk],
              [publishSink sinkOk "update"
                (cleanForResponse pfx (updateStored pfx (schemaMap (mergeFn original_data callData))))]⟩

/-- Python `result.get("Item", {})` on a `get_item` response. -/
def getItemOrEmpty (response : Item) : Value :=
  match lookup response "Item" with
  | some v => v
  | none => .dict []

/-- `DynamodbAdapter.get`, with the store's `get_item` response a parameter:
fall back to the empty dict when no `Item` is present, strip prefixes, and
return the raw item when stripping did not yield a dict. -/
def adapterGet (pfx : DynamodbPrefixer) (response : Item) : Value :=
  match prefixRemove pfx (getItemOrEmpty response) with
  | .dict d => .dict d
  | _ => getItemOrEmpty response

/-- The chunking of `batch_insert`: `data[pos : pos + bs]` for
`pos in range(0, len(data), bs)` (with `bs > 0`). -/
def chunked (bs : Nat) (l : List α) : List (List α) :=
  (List.range ((l.length + bs - 1) / bs)).map (fun i => (l.drop (i * bs)).take bs)

/-- `DynamodbAdapter.batch_insert`, returning the chunks of items written
through the batch writer (in write order).  Non-list input fails with
`BatchItemException` before any chunk is produced. -/
def batch_insert (pfx : DynamodbPrefixer) (schemaMap : Value → Value)
    (data : Value) (batch_size : Nat) : Except DdbError (List (List Value)) :=
  match data with
  | .list items =>
      .ok ((chunked batch_size (items.map schemaMap)).map (fun batch =>
        match prefixAdd pfx (.list batch) with
        | .list l => l
        | _ => batch))
  | _ => .error .batchItem

/-- Modelled from the spec: `common/__init__.py` (`merge`) is not under
`src/`.  Spec section 4.2 MERGE contract: fields absent from the partial are
preserved from the original; fields present in the partial replace the
original value.  Used only to instantiate the abstract merge parameter. -/
def mergeRecords (orig incoming : Item) : Item :=
  orig.map (fun kv =>
    match lookup incoming kv.1 with
    | some v => (kv.1, v)
    | none => kv)
  ++ incoming.filter (fun kv => !(containsKey orig kv.1))

/-- Concrete instance of the abstract timestamp parse recognizing exactly
`YYYY-MM-DD` (the format exercised by the repository's tests), used to
instantiate witnesses and counterexamples. -/
def isoDateParse (s : String) : Option Int :=
  match s.data with
  | [a, b, c, d, h1, e, f, h2, g, i] =>
      if (a.isDigit && b.isDigit && c.isDigit && d.isDigit &&
          e.isDigit && f.isDigit && g.isDigit && i.isDigit) &&
          (h1 == '-') && (h2 == '-') then
        let y := ((a.toNat - 48) * 10 + (b.toNat - 48)) * 100 +
          ((c.toNat - 48) * 10 + (d.toNat - 48))
        let mo := (e.toNat - 48) * 10 + (f.toNat - 48)
        let da := (g.toNat - 48) * 10 + (i.toNat - 48)
        if 1 ≤ mo ∧ mo ≤ 12 ∧ 1 ≤ da ∧ da ≤ 31 then
          some (Int.ofNat ((y * 100 + mo) * 100 + da))
        else none
      else none
  | _ => none

/-- Cleanness of one key/prefix pair on an item: the value at the key, when a
string, does not already start with the prefix (inactive pairs are clean). -/
def cleanKeyB (i : Item) (kOpt pOpt : Option String) : Bool :=
  match kOpt, pOpt with
  | some k, some p =>
      if k = "" ∨ p = "" then true
      else
        match lookup i k with
        | some (.str s) => !(strStartsWith s p)
        | _ => true
  | _, _ => true

/-- Cleanness of an item for both configured pairs. -/
def cleanItemB (pfx : DynamodbPrefixer) (i : Item) : Bool :=
  cleanKeyB i pfx.hash_key pfx.hash_pfx && cleanKeyB i pfx.range_key pfx.range_pfx

/-- Cleanness of a list as processed element-wise. -/
def cleanListB (pfx : DynamodbPrefixer) (l : List Value) : Bool :=
  l.all (fun v => match v with
    | .dict i => cleanItemB pfx i
    | _ => true)

/-- Cleanness of a record as `__process` traverses it: each wrapper child that
would be rewritten is clean, and a record without wrapper keys is clean as a
single item. -/
def cleanTopB (pfx : DynamodbPrefixer) (d : Item) : Bool :=
  (match lookup d "Items" with
    | some (.list l) => cleanListB pfx l
    | _ => true) &&
  (match lookup d "Item" with
    | some (.dict i) => cleanItemB pfx i
    | _ => true) &&
  (match lookup d "LastEvaluatedKey" with
    | some (.dict i) => cleanItemB pfx i
    | _ => true) &&
  (match lookup d "Key" with
    | some (.dict i) => cleanItemB pfx i
    | _ => true) &&
  (if hasWrapperKey d then true else cleanItemB pfx d)

/-- The active key/prefix pair described by an option pair, if any (both
halves present and truthy). -/
def activePair (kOpt pOpt : Option String) : Option (String × String) :=
  match kOpt, pOpt with
  | some k, some p => if k = "" ∨ p = "" then none else some (k, p)
  | _, _ => none

/-- The hash and range pairs, when both active, target distinct fields. -/
def distinctB (pfx : DynamodbPrefixer) : Bool :=
  match activePair pfx.hash_key pfx.hash_pfx, activePair pfx.range_key pfx.range_pfx with
  | some (k1, _), some (k2, _) => !(k1 == k2)
  | _, _ => true

/-- The item of a dict value (empty on other shapes). -/
def itemOf : Value → Item
  | .dict d => d
  | _ => []

/-- The decision of `__apply_prefix` on a string value: the replacement
written back, or `none` for a no-op. -/
def applyKeyVal (s p : String) (add : Bool) : Option String :=
  if add then
    if strStartsWith s p then none else some (p ++ s)
  else
    if strStartsWith s p then some (strDrop s p.length) else none

/-- The string value at a key, if the key holds a string. -/
def lookupStr (i : Item) (k : String) : Option String :=
  match lookup i k with
  | some (.str s) => some s
  | _ => none

/-- `__apply_prefix` restated over the optional active pair. -/
def applyPair (i : Item) : Option (String × String) → Bool → Item
  | some (k, p), b => applyKey i k p b
  | none, _ => i

/-- Cleanness of an item with respect to an optional active pair. -/
def CleanPair (i : Item) (o : Option (String × String)) : Prop :=
  ∀ k p s, o = some (k, p) → lookupStr i k = some s → strStartsWith s p = false

/-- Fixture: the tenant prefix configuration of the repository's tests. -/
def pfxTenant : DynamodbPrefixer :=
  ⟨some "test_id", some "tenant#", none, none⟩

/-- Fixture: the inert prefix configuration (no pair configured). -/
def pfxNone : DynamodbPrefixer :=
  ⟨none, none, none, none⟩

/-- Fixture: adapter with the idempotence key on the prefixed hash field and
`raise_idempotence_error` set. -/
def adapterKeyOnHash : DynamodbAdapter :=
  ⟨"test_id", some "test_id", true, false⟩

/-- Fixture: adapter guarding `modified`, errors not raised, no use-latest. -/
def adapterModified : DynamodbAdapter :=
  ⟨"test_id", some "modified", false, false⟩

/-- Fixture: adapter guarding `modified` with `idempotence_use_latest`. -/
def adapterUseLatest : DynamodbAdapter :=
  ⟨"test_id", some "modified", false, true⟩

/-- Fixture: adapter guarding the absent field `missing_key` with
`raise_idempotence_error` set. -/
def adapterMissingKey : DynamodbAdapter :=
  ⟨"test_id", some "missing_key", true, false⟩

/-- Fixture: stored record of the repository's update tests. -/
def origModified : Item :=
  [("test_id", .str "abc123"), ("modified", .str "2020-10-05")]

/-- Fixture: caller partial update submitting a newer `modified`. -/
def dataModified : Item :=
  [("modified", .str "2020-10-06")]

/-- Fixture: a fetched record that still carries a tenant prefix after one
strip (its stored form carried the prefix twice). -/
def origDoublePrefixed : Item :=
  [("test_id", .str "tenant#abc"), ("modified", .str "2020-10-06")]

/-- Fixture: 30 integer items for the batch-chunking witness. -/
def items30 : List Value :=
  (List.range 30).map (fun n => Value.int (Int.ofNat n))

/-- Fixture: stored record whose guard field is newer than the incoming one. -/
def origNewer : Item :=
  [("test_id", .str "abc123"), ("modified", .str "2020-10-06")]

/-- Fixture: caller partial update with the older `modified`. -/
def dataOlder : Item :=
  [("modified", .str "2020-10-05")]

/-- Fixture: stored record with no `modified` field at all. -/
def origNoModified : Item :=
  [("test_id", .str "abc123")]

/-- Fixture: caller partial update with a non-timestamp `modified`. -/
def dataGarbage : Item :=
  [("modified", .str "garbage")]

/-- Fixture: stored record with a non-timestamp `modified`. -/
def origGarbage : Item :=
  [("test_id", .str "abc123"), ("modified", .str "garbage")]

/-- Fixture: the outcome of the guarded update of the repository's tests
(stored `modified` 2020-10-05, caller submits 2020-10-06, no prefixes). -/
def updOutcomeWit : UpdateOutcome :=
  ⟨[("test_id", .str "abc123"), ("modified", .str "2020-10-06")],
    [⟨[("test_id", .str "abc123"), ("modified", .str "2020-10-06")],
      some (.attrEq "modified" (.str "2020-10-05"))⟩],
    [⟨"update", [("test_id", .str "abc123"), ("modified", .str "2020-10-06")], true⟩]⟩

theorem lookup_setKey_ne {k j : String} (i : Item) (v : Value) (h : j ≠ k) :
    lookup (setKey i k v) j = lookup i j := by
  induction i with
  | nil => rfl
  | cons kv t ih =>
    obtain ⟨k', v'⟩ := kv
    by_cases hk : k' = k
    · subst hk
      simp only [setKey, if_pos rfl, lookup]
      rw [if_neg (fun hh : k' = j => h hh.symm), if_neg (fun hh : k' = j => h hh.symm)]
    · simp [setKey, lookup, hk, ih]

theorem lookup_some_containsKey {i : Item} {k : String} {v : Value}
    (h : lookup i k = some v) : containsKey i k = true := by
  induction i with
  | nil => simp [lookup] at h
  | cons kv t ih =>
    obtain ⟨k', v'⟩ := kv
    by_cases hk : k' = k
    · simp [containsKey, hk]
    · simp [lookup, hk] at h
      simp [containsKey, hk, ih h]

theorem lookup_eq_none_of_containsKey {i : Item} {k : String}
    (h : containsKey i k = false) : lookup i k = none := by
  cases hl : lookup i k with
  | none => rfl
  | some v => rw [lookup_some_containsKey hl] at h; cases h

theorem lookup_setKey_self {i : Item} {k : String} (v : Value)
    (h : containsKey i k = true) : lookup (setKey i k v) k = some v := by
  induction i with
  | nil => simp [containsKey] at h
  | cons kv t ih =>
    obtain ⟨k', v'⟩ := kv
    by_cases hk : k' = k
    · simp [setKey, hk, lookup]
    · simp [containsKey, hk] at h
      simp [setKey, hk, lookup, ih h]

theorem setKey_eq_self {i : Item} {k : String} {v : Value}
    (h : lookup i k = some v) : setKey i k v = i := by
  induction i with
  | nil => simp [lookup] at h
  | cons kv t ih =>
    obtain ⟨k', v'⟩ := kv
    by_cases hk : k' = k
    · subst hk
      simp [lookup] at h
      simp [setKey, h]
    · simp [lookup, hk] at h
      simp [setKey, hk, ih h]

theorem setKey_setKey (i : Item) (k : String) (v w : Value) :
    setKey (setKey i k v) k w = setKey i k w := by
  induction i with
  | nil => rfl
  | cons kv t ih =>
    obtain ⟨k', v'⟩ := kv
    by_cases hk : k' = k
    · simp [setKey, hk]
    · simp [setKey, hk, ih]

theorem setKey_comm {k1 k2 : String} (i : Item) (v1 v2 : Value) (h : k1 ≠ k2) :
    setKey (setKey i k1 v1) k2 v2 = setKey (setKey i k2 v2) k1 v1 := by
  induction i with
  | nil => rfl
  | cons kv t ih =>
    obtain ⟨k', v'⟩ := kv
    by_cases h1 : k' = k1
    · subst h1
      simp [setKey, h, fun hh : k' = k2 => h (hh ▸ rfl)]
    · by_cases h2 : k' = k2
      · subst h2
        simp [setKey, h1, fun hh : k' = k1 => h1 hh]
      · simp [setKey, h1, h2, ih]

theorem containsKey_setKey (i : Item) (k j : String) (v : Value) :
    containsKey (setKey i k v) j = containsKey i j := by
  induction i with
  | nil => rfl
  | cons kv t ih =>
    obtain ⟨k', v'⟩ := kv
    by_cases hk : k' = k
    · subst hk
      simp [setKey, containsKey]
    · simp [setKey, containsKey, hk]
      rw [ih]

theorem string_data_append (p s : String) : (p ++ s).data = p.data ++ s.data := rfl

theorem strStartsWith_append (p s : String) : strStartsWith (p ++ s) p = true := by
  simp [strStartsWith, string_data_append, List.isPrefixOf_iff_prefix]

theorem strDrop_append (p s : String) : strDrop (p ++ s) p.length = s := by
  obtain ⟨pd⟩ := p
  obtain ⟨sd⟩ := s
  show String.mk ((pd ++ sd).drop pd.length) = String.mk sd
  rw [List.drop_left]

theorem lookup_of_lookupStr {i : Item} {k s : String}
    (h : lookupStr i k = some s) : lookup i k = some (.str s) := by
  unfold lookupStr at h
  cases hv : lookup i k with
  | none => rw [hv] at h; cases h
  | some v =>
    rw [hv] at h
    cases v <;> simp at h
    rw [h]

theorem applyKey_eq (i : Item) (k p : String) (b : Bool) :
    applyKey i k p b =
      (match lookupStr i k with
        | some s =>
            match applyKeyVal s p b with
            | some w => setKey i k (.str w)
            | none => i
        | none => i) := by
  unfold applyKey applyKeyVal lookupStr
  cases lookup i k with
  | none => rfl
  | some v =>
    cases v with
    | str s =>
      cases b with
      | true => by_cases hs : strStartsWith s p = true <;> simp [hs]
      | false => by_cases hs : strStartsWith s p = true <;> simp [hs]
    | null => rfl
    | bool _ => rfl
    | int _ => rfl
    | list _ => rfl
    | dict _ => rfl

theorem lookupStr_setKey_ne {k j : String} (i : Item) (v : Value) (h : j ≠ k) :
    lookupStr (setKey i k v) j = lookupStr i j := by
  unfold lookupStr
  rw [lookup_setKey_ne i v h]

theorem lookup_applyKey_ne {k j : String} (i : Item) (p : String) (b : Bool)
    (h : j ≠ k) : lookup (applyKey i k p b) j = lookup i j := by
  cases hs : lookupStr i k with
  | none => rw [applyKey_eq, hs]
  | some s =>
    rw [applyKey_eq, hs]
    cases hw : applyKeyVal s p b with
    | none => simp [hw]
    | some w => simp [hw, lookup_setKey_ne i (Value.str w) h]

theorem lookupStr_applyKey_ne {k j : String} (i : Item) (p : String) (b : Bool)
    (h : j ≠ k) : lookupStr (applyKey i k p b) j = lookupStr i j := by
  unfold lookupStr
  rw [lookup_applyKey_ne i p b h]

theorem containsKey_applyKey (i : Item) (k p : String) (b : Bool) (j : String) :
    containsKey (applyKey i k p b) j = containsKey i j := by
  cases hs : lookupStr i k with
  | none => rw [applyKey_eq, hs]
  | some s =>
    rw [applyKey_eq, hs]
    cases hw : applyKeyVal s p b with
    | none => simp [hw]
    | some w => simp [hw, containsKey_setKey i k j (Value.str w)]

theorem applyKey_comm {k1 k2 : String} (i : Item) (p1 p2 : String) (b1 b2 : Bool)
    (h : k1 ≠ k2) :
    applyKey (applyKey i k1 p1 b1) k2 p2 b2 = applyKey (applyKey i k2 p2 b2) k1 p1 b1 := by
  cases hs1 : lookupStr i k1 with
  | none =>
    have a1 : applyKey i k1 p1 b1 = i := by rw [applyKey_eq, hs1]
    rw [a1, applyKey_eq (applyKey i k2 p2 b2) k1 p1 b1,
      lookupStr_applyKey_ne i p2 b2 h, hs1]
  | some s1 =>
    cases hs2 : lookupStr i k2 with
    | none =>
      have a2 : applyKey i k2 p2 b2 = i := by rw [applyKey_eq, hs2]
      rw [a2, applyKey_eq (applyKey i k1 p1 b1) k2 p2 b2,
        lookupStr_applyKey_ne i p1 b1 (Ne.symm h), hs2]
    | some s2 =>
      cases hw1 : applyKeyVal s1 p1 b1 with
      | none =>
        have a1 : applyKey i k1 p1 b1 = i := by rw [applyKey_eq, hs1]; simp [hw1]
        rw [a1, applyKey_eq (applyKey i k2 p2 b2) k1 p1 b1,
          lookupStr_applyKey_ne i p2 b2 h, hs1]
        simp [hw1]
      | some w1 =>
        have a1 : applyKey i k1 p1 b1 = setKey i k1 (.str w1) := by
          rw [applyKey_eq, hs1]; simp [hw1]
        cases hw2 : applyKeyVal s2 p2 b2 with
        | none =>
          have a2 : applyKey i k2 p2 b2 = i := by rw [applyKey_eq, hs2]; simp [hw2]
          rw [a2, a1, applyKey_eq (setKey i k1 (.str w1)) k2 p2 b2,
            lookupStr_setKey_ne i _ (Ne.symm h), hs2]
          simp [hw2]
        | some w2 =>
          have a2 : applyKey i k2 p2 b2 = setKey i k2 (.str w2) := by
            rw [applyKey_eq, hs2]; simp [hw2]
          rw [a1, a2, applyKey_eq (setKey i k1 (.str w1)) k2 p2 b2,
            lookupStr_setKey_ne i _ (Ne.symm h), hs2,
            applyKey_eq (setKey i k2 (.str w2)) k1 p1 b1,
            lookupStr_setKey_ne i _ h, hs1]
          simp [hw1, hw2, setKey_comm i _ _ h]

theorem applyKey_add_idem (i : Item) (k p : String) :
    applyKey (applyKey i k p true) k p true = applyKey i k p true := by
  cases hs : lookupStr i k with
  | none =>
    have a1 : applyKey i k p true = i := by rw [applyKey_eq, hs]
    rw [a1, applyKey_eq, hs]
  | some s =>
    cases hw : applyKeyVal s p true with
    | none =>
      have a1 : applyKey i k p true = i := by rw [applyKey_eq, hs]; simp [hw]
      rw [a1, applyKey_eq, hs]
      simp [hw]
    | some w =>
      have hw' : w = p ++ s := by
        unfold applyKeyVal at hw
        by_cases hstart : strStartsWith s p = true
        · simp [hstart] at hw
        · simp [hstart] at hw; exact hw.symm
      have a1 : applyKey i k p true = setKey i k (.str w) := by
        rw [applyKey_eq, hs]; simp [hw]
      rw [a1, applyKey_eq]
      have hc : containsKey i k = true :=
        lookup_some_containsKey (lookup_of_lookupStr hs)
      have hl2 : lookupStr (setKey i k (.str w)) k = some w := by
        unfold lookupStr
        rw [lookup_setKey_self _ hc]
      rw [hl2]
      have : applyKeyVal w p true = none := by
        unfold applyKeyVal
        rw [hw']
        simp [strStartsWith_append]
      simp [this]

theorem applyKey_roundtrip (i : Item) (k p : String)
    (hc : ∀ s, lookupStr i k = some s → strStartsWith s p = false) :
    applyKey (applyKey i k p true) k p false = i := by
  cases hs : lookupStr i k with
  | none =>
    have a1 : applyKey i k p true = i := by rw [applyKey_eq, hs]
    rw [a1, applyKey_eq, hs]
  | some s =>
    have hclean := hc s hs
    have hw : applyKeyVal s p true = some (p ++ s) := by
      unfold applyKeyVal
      simp [hclean]
    have a1 : applyKey i k p true = setKey i k (.str (p ++ s)) := by
      rw [applyKey_eq, hs]; simp [hw]
    rw [a1, applyKey_eq]
    have hcont : containsKey i k = true :=
      lookup_some_containsKey (lookup_of_lookupStr hs)
    have hl2 : lookupStr (setKey i k (.str (p ++ s))) k = some (p ++ s) := by
      unfold lookupStr
      rw [lookup_setKey_self _ hcont]
    rw [hl2]
    have hwr : applyKeyVal (p ++ s) p false = some s := by
      unfold applyKeyVal
      simp [strStartsWith_append, strDrop_append]
    simp only [hwr]
    rw [setKey_setKey, setKey_eq_self (lookup_of_lookupStr hs)]

theorem applyKey_rm_clean (i : Item) (k p : String)
    (hc : ∀ s, lookupStr i k = some s → strStartsWith s p = false) :
    applyKey i k p false = i := by
  cases hs : lookupStr i k with
  | none => rw [applyKey_eq, hs]
  | some s =>
    have hclean := hc s hs
    rw [applyKey_eq, hs]
    have : applyKeyVal s p false = none := by
      unfold applyKeyVal
      simp [hclean]
    simp [this]

theorem applyPfx_eq_applyPair (i : Item) (kOpt pOpt : Option String) (b : Bool) :
    applyPfx i kOpt pOpt b = applyPair i (activePair kOpt pOpt) b := by
  cases kOpt with
  | none => cases pOpt <;> rfl
  | some k =>
    cases pOpt with
    | none => rfl
    | some p =>
      by_cases h : k = "" ∨ p = "" <;> simp [applyPfx, activePair, h, applyPair]

theorem processItem_eq (pfx : DynamodbPrefixer) (b : Bool) (i : Item) :
    processItem pfx b i =
      applyPair (applyPair i (activePair pfx.hash_key pfx.hash_pfx) b)
        (activePair pfx.range_key pfx.range_pfx) b := by
  unfold processItem
  rw [applyPfx_eq_applyPair, applyPfx_eq_applyPair]

theorem containsKey_applyPair (i : Item) (o : Option (String × String)) (b : Bool)
    (j : String) : containsKey (applyPair i o b) j = containsKey i j := by
  cases o with
  | none => rfl
  | some kp => exact containsKey_applyKey i kp.1 kp.2 b j

theorem containsKey_processItem (pfx : DynamodbPrefixer) (b : Bool) (i : Item)
    (j : String) : containsKey (processItem pfx b i) j = containsKey i j := by
  rw [processItem_eq, containsKey_applyPair, containsKey_applyPair]

theorem applyPair_comm (i : Item) (o1 o2 : Option (String × String)) (b1 b2 : Bool)
    (h : ∀ k1 p1 k2 p2, o1 = some (k1, p1) → o2 = some (k2, p2) → k1 ≠ k2) :
    applyPair (applyPair i o1 b1) o2 b2 = applyPair (applyPair i o2 b2) o1 b1 := by
  cases o1 with
  | none => rfl
  | some kp1 =>
    cases o2 with
    | none => rfl
    | some kp2 =>
      exact applyKey_comm i kp1.2 kp2.2 b1 b2 (h kp1.1 kp1.2 kp2.1 kp2.2 rfl rfl)

theorem applyPair_add_idem (i : Item) (o : Option (String × String)) :
    applyPair (applyPair i o true) o true = applyPair i o true := by
  cases o with
  | none => rfl
  | some kp => exact applyKey_add_idem i kp.1 kp.2

theorem applyPair_roundtrip (i : Item) (o : Option (String × String))
    (hc : CleanPair i o) :
    applyPair (applyPair i o true) o false = i := by
  cases o with
  | none => rfl
  | some kp => exact applyKey_roundtrip i kp.1 kp.2 (fun s => hc kp.1 kp.2 s rfl)

theorem applyPair_rm_clean (i : Item) (o : Option (String × String))
    (hc : CleanPair i o) : applyPair i o false = i := by
  cases o with
  | none => rfl
  | some kp => exact applyKey_rm_clean i kp.1 kp.2 (fun s => hc kp.1 kp.2 s rfl)

theorem distinct_pairs {pfx : DynamodbPrefixer} (hd : distinctB pfx = true) :
    ∀ k1 p1 k2 p2, activePair pfx.hash_key pfx.hash_pfx = some (k1, p1) →
      activePair pfx.range_key pfx.range_pfx = some (k2, p2) → k1 ≠ k2 := by
  intro k1 p1 k2 p2 h1 h2
  unfold distinctB at hd
  rw [h1, h2] at hd
  simp at hd
  exact hd

theorem cleanKeyB_active {i : Item} {kOpt pOpt : Option String}
    (hc : cleanKeyB i kOpt pOpt = true) :
    CleanPair i (activePair kOpt pOpt) := by
  intro k p s hact hls
  cases kOpt with
  | none => simp [activePair] at hact
  | some k' =>
    cases pOpt with
    | none => simp [activePair] at hact
    | some p' =>
      simp only [activePair] at hact
      by_cases h : k' = "" ∨ p' = ""
      · rw [if_pos h] at hact; cases hact
      · rw [if_neg h] at hact
        injection hact with hkp
        obtain ⟨hk, hp⟩ := Prod.mk.inj hkp
        subst hk
        subst hp
        simp only [cleanKeyB] at hc
        rw [if_neg h, lookup_of_lookupStr hls] at hc
        simp at hc
        exact hc

theorem cleanItemB_pairs {pfx : DynamodbPrefixer} {i : Item}
    (hc : cleanItemB pfx i = true) :
    CleanPair i (activePair pfx.hash_key pfx.hash_pfx) ∧
      CleanPair i (activePair pfx.range_key pfx.range_pfx) := by
  unfold cleanItemB at hc
  simp at hc
  exact ⟨cleanKeyB_active hc.1, cleanKeyB_active hc.2⟩

theorem processItem_add_idem (pfx : DynamodbPrefixer) (i : Item)
    (hd : distinctB pfx = true) :
    processItem pfx true (processItem pfx true i) = processItem pfx true i := by
  rw [processItem_eq, processItem_eq]
  rw [applyPair_comm (applyPair i (activePair pfx.hash_key pfx.hash_pfx) true)
    (activePair pfx.range_key pfx.range_pfx) (activePair pfx.hash_key pfx.hash_pfx)
    true true (fun k2 p2 k1 p1 h2 h1 => (distinct_pairs hd k1 p1 k2 p2 h1 h2).symm)]
  rw [applyPair_add_idem, applyPair_add_idem]

theorem processItem_roundtrip (pfx : DynamodbPrefixer) (i : Item)
    (hd : distinctB pfx = true) (hc : cleanItemB pfx i = true) :
    processItem pfx false (processItem pfx true i) = i := by
  obtain ⟨hc1, hc2⟩ := cleanItemB_pairs hc
  rw [processItem_eq, processItem_eq]
  rw [applyPair_comm (applyPair i (activePair pfx.hash_key pfx.hash_pfx) true)
    (activePair pfx.range_key pfx.range_pfx) (activePair pfx.hash_key pfx.hash_pfx)
    true false (fun k2 p2 k1 p1 h2 h1 => (distinct_pairs hd k1 p1 k2 p2 h1 h2).symm)]
  rw [applyPair_roundtrip i _ hc1, applyPair_roundtrip i _ hc2]

theorem processItem_rm_clean (pfx : DynamodbPrefixer) (i : Item)
    (hc : cleanItemB pfx i = true) :
    processItem pfx false i = i := by
  obtain ⟨hc1, hc2⟩ := cleanItemB_pairs hc
  rw [processItem_eq, applyPair_rm_clean i _ hc1, applyPair_rm_clean i _ hc2]

theorem mapProcessItems_add_idem (pfx : DynamodbPrefixer) (l : List Value)
    (hd : distinctB pfx = true) :
    mapProcessItems pfx true (mapProcessItems pfx true l) = mapProcessItems pfx true l := by
  induction l with
  | nil => rfl
  | cons v t ih =>
    unfold mapProcessItems at ih ⊢
    simp only [List.map_cons]
    rw [ih]
    congr 1
    cases v with
    | dict i => exact congrArg Value.dict (processItem_add_idem pfx i hd)
    | null => rfl
    | bool _ => rfl
    | int _ => rfl
    | str _ => rfl
    | list _ => rfl

theorem mapProcessItems_roundtrip (pfx : DynamodbPrefixer) (l : List Value)
    (hd : distinctB pfx = true) (hc : cleanListB pfx l = true) :
    mapProcessItems pfx false (mapProcessItems pfx true l) = l := by
  induction l with
  | nil => rfl
  | cons v t ih =>
    simp only [cleanListB, List.all_cons, Bool.and_eq_true] at hc
    unfold mapProcessItems at ih ⊢
    simp only [List.map_cons]
    rw [ih hc.2]
    congr 1
    cases v with
    | dict i => exact congrArg Value.dict (processItem_roundtrip pfx i hd hc.1)
    | null => rfl
    | bool _ => rfl
    | int _ => rfl
    | str _ => rfl
    | list _ => rfl

theorem mapProcessItems_rm_clean (pfx : DynamodbPrefixer) (l : List Value)
    (hc : cleanListB pfx l = true) :
    mapProcessItems pfx false l = l := by
  induction l with
  | nil => rfl
  | cons v t ih =>
    simp only [cleanListB, List.all_cons, Bool.and_eq_true] at hc
    unfold mapProcessItems at ih ⊢
    simp only [List.map_cons]
    rw [ih hc.2]
    congr 1
    cases v with
    | dict i => exact congrArg Value.dict (processItem_rm_clean pfx i hc.1)
    | null => rfl
    | bool _ => rfl
    | int _ => rfl
    | str _ => rfl
    | list _ => rfl

theorem touch_none {d : Item} {k : String} (tr : Value → Option Value)
    (h : lookup d k = none) : touch k tr d = d := by
  simp [touch, h]

theorem touch_some_none {d : Item} {k : String} {v : Value} {tr : Value → Option Value}
    (hv : lookup d k = some v) (htr : tr v = none) : touch k tr d = d := by
  simp [touch, hv, htr]

theorem touch_some_some {d : Item} {k : String} {v v' : Value} {tr : Value → Option Value}
    (hv : lookup d k = some v) (htr : tr v = some v') : touch k tr d = setKey d k v' := by
  simp [touch, hv, htr]

theorem lookup_touch_ne {k j : String} (tr : Value → Option Value) (d : Item)
    (h : j ≠ k) : lookup (touch k tr d) j = lookup d j := by
  cases hl : lookup d k with
  | none => rw [touch_none tr hl]
  | some v =>
    cases htr : tr v with
    | none => rw [touch_some_none hl htr]
    | some v' => rw [touch_some_some hl htr, lookup_setKey_ne d v' h]

theorem containsKey_touch (k : String) (tr : Value → Option Value) (d : Item)
    (j : String) : containsKey (touch k tr d) j = containsKey d j := by
  cases hl : lookup d k with
  | none => rw [touch_none tr hl]
  | some v =>
    cases htr : tr v with
    | none => rw [touch_some_none hl htr]
    | some v' => rw [touch_some_some hl htr, containsKey_setKey d k j v']

theorem touch_comm {k1 k2 : String} (tr1 tr2 : Value → Option Value) (d : Item)
    (h : k1 ≠ k2) :
    touch k1 tr1 (touch k2 tr2 d) = touch k2 tr2 (touch k1 tr1 d) := by
  cases hl1 : lookup d k1 with
  | none =>
    have hl1' : lookup (touch k2 tr2 d) k1 = none := by
      rw [lookup_touch_ne tr2 d h, hl1]
    rw [touch_none tr1 hl1, touch_none tr1 hl1']
  | some v1 =>
    have hl1' : lookup (touch k2 tr2 d) k1 = some v1 := by
      rw [lookup_touch_ne tr2 d h, hl1]
    cases htr1 : tr1 v1 with
    | none => rw [touch_some_none hl1 htr1, touch_some_none hl1' htr1]
    | some v1' =>
      rw [touch_some_some hl1' htr1, touch_some_some hl1 htr1]
      cases hl2 : lookup d k2 with
      | none =>
        have hl2' : lookup (setKey d k1 v1') k2 = none := by
          rw [lookup_setKey_ne d v1' (Ne.symm h), hl2]
        rw [touch_none tr2 hl2, touch_none tr2 hl2']
      | some v2 =>
        have hl2' : lookup (setKey d k1 v1') k2 = some v2 := by
          rw [lookup_setKey_ne d v1' (Ne.symm h), hl2]
        cases htr2 : tr2 v2 with
        | none => rw [touch_some_none hl2 htr2, touch_some_none hl2' htr2]
        | some v2' =>
          rw [touch_some_some hl2 htr2, touch_some_some hl2' htr2,
            setKey_comm d v2' v1' (Ne.symm h)]

theorem touch_idem {k : String} {tr : Value → Option Value} (d : Item)
    (htr : ∀ v v', tr v = some v' → tr v' = some v') :
    touch k tr (touch k tr d) = touch k tr d := by
  cases hl : lookup d k with
  | none => rw [touch_none tr hl, touch_none tr hl]
  | some v =>
    cases htr0 : tr v with
    | none => rw [touch_some_none hl htr0, touch_some_none hl htr0]
    | some v' =>
      rw [touch_some_some hl htr0]
      have hl' : lookup (setKey d k v') k = some v' :=
        lookup_setKey_self v' (lookup_some_containsKey hl)
      rw [touch_some_some hl' (htr v v' htr0), setKey_setKey]

theorem touch_roundtrip {k : String} {trA trR : Value → Option Value} (d : Item)
    (hv : ∀ v v', lookup d k = some v → trA v = some v' → trR v' = some v)
    (hn : ∀ v, lookup d k = some v → trA v = none → trR v = none) :
    touch k trR (touch k trA d) = d := by
  cases hl : lookup d k with
  | none => rw [touch_none trA hl, touch_none trR hl]
  | some v =>
    cases htr : trA v with
    | none => rw [touch_some_none hl htr, touch_some_none hl (hn v hl htr)]
    | some v' =>
      rw [touch_some_some hl htr]
      have hl' : lookup (setKey d k v') k = some v' :=
        lookup_setKey_self v' (lookup_some_containsKey hl)
      rw [touch_some_some hl' (hv v v' hl htr), setKey_setKey, setKey_eq_self hl]

theorem touch_clean {k : String} {tr : Value → Option Value} (d : Item)
    (hcl : ∀ v, lookup d k = some v → tr v = none ∨ tr v = some v) :
    touch k tr d = d := by
  cases hl : lookup d k with
  | none => rw [touch_none tr hl]
  | some v =>
    rcases hcl v hl with htr | htr
    · rw [touch_some_none hl htr]
    · rw [touch_some_some hl htr, setKey_eq_self hl]

theorem trItems_idem (pfx : DynamodbPrefixer) (hd : distinctB pfx = true) :
    ∀ v v', trItems pfx true v = some v' → trItems pfx true v' = some v' := by
  intro v v' h
  cases v with
  | list l =>
    simp only [trItems] at h
    injection h with h
    rw [← h]
    simp only [trItems]
    rw [mapProcessItems_add_idem pfx l hd]
  | null => cases h
  | bool _ => cases h
  | int _ => cases h
  | str _ => cases h
  | dict _ => cases h

theorem trItem_idem (pfx : DynamodbPrefixer) (hd : distinctB pfx = true) :
    ∀ v v', trItem pfx true v = some v' → trItem pfx true v' = some v' := by
  intro v v' h
  cases v with
  | dict i =>
    simp only [trItem] at h
    injection h with h
    rw [← h]
    simp only [trItem]
    rw [processItem_add_idem pfx i hd]
  | null => cases h
  | bool _ => cases h
  | int _ => cases h
  | str _ => cases h
  | list _ => cases h

theorem trItems_none (pfx : DynamodbPrefixer) :
    ∀ v, trItems pfx true v = none → trItems pfx false v = none := by
  intro v h
  cases v <;> simp [trItems] at h ⊢

theorem trItem_none (pfx : DynamodbPrefixer) :
    ∀ v, trItem pfx true v = none → trItem pfx false v = none := by
  intro v h
  cases v <;> simp [trItem] at h ⊢

theorem containsKey_processTop (pfx : DynamodbPrefixer) (b : Bool) (d : Item)
    (j : String) : containsKey (processTop pfx b d) j = containsKey d j := by
  unfold processTop
  rw [containsKey_touch, containsKey_touch, containsKey_touch, containsKey_touch]

theorem hasWrapperKey_processTop (pfx : DynamodbPrefixer) (b : Bool) (d : Item) :
    hasWrapperKey (processTop pfx b d) = hasWrapperKey d := by
  unfold hasWrapperKey
  rw [containsKey_processTop, containsKey_processTop, containsKey_processTop,
    containsKey_processTop]

theorem hasWrapperKey_processItem (pfx : DynamodbPrefixer) (b : Bool) (i : Item) :
    hasWrapperKey (processItem pfx b i) = hasWrapperKey i := by
  unfold hasWrapperKey
  rw [containsKey_processItem, containsKey_processItem, containsKey_processItem,
    containsKey_processItem]

theorem processTop_no_wrapper (pfx : DynamodbPrefixer) (b : Bool) (d : Item)
    (h : hasWrapperKey d = false) : processTop pfx b d = d := by
  simp only [hasWrapperKey, Bool.or_eq_false_iff] at h
  obtain ⟨⟨⟨h1, h2⟩, h3⟩, h4⟩ := h
  unfold processTop
  rw [touch_none _ (lookup_eq_none_of_containsKey h1),
    touch_none _ (lookup_eq_none_of_containsKey h2),
    touch_none _ (lookup_eq_none_of_containsKey h3),
    touch_none _ (lookup_eq_none_of_containsKey h4)]

theorem cleanTopB_items {pfx : DynamodbPrefixer} {d : Item} {l : List Value}
    (hc : cleanTopB pfx d = true) (hl : lookup d "Items" = some (.list l)) :
    cleanListB pfx l = true := by
  unfold cleanTopB at hc
  rw [hl] at hc
  simp only [Bool.and_eq_true] at hc
  exact hc.1.1.1.1

theorem cleanTopB_item {pfx : DynamodbPrefixer} {d : Item} {i : Item}
    (hc : cleanTopB pfx d = true) (hl : lookup d "Item" = some (.dict i)) :
    cleanItemB pfx i = true := by
  unfold cleanTopB at hc
  rw [hl] at hc
  simp only [Bool.and_eq_true] at hc
  exact hc.1.1.1.2

theorem cleanTopB_lek {pfx : DynamodbPrefixer} {d : Item} {i : Item}
    (hc : cleanTopB pfx d = true) (hl : lookup d "LastEvaluatedKey" = some (.dict i)) :
    cleanItemB pfx i = true := by
  unfold cleanTopB at hc
  rw [hl] at hc
  simp only [Bool.and_eq_true] at hc
  exact hc.1.1.2

theorem cleanTopB_key {pfx : DynamodbPrefixer} {d : Item} {i : Item}
    (hc : cleanTopB pfx d = true) (hl : lookup d "Key" = some (.dict i)) :
    cleanItemB pfx i = true := by
  unfold cleanTopB at hc
  rw [hl] at hc
  simp only [Bool.and_eq_true] at hc
  exact hc.1.2

theorem cleanTopB_self {pfx : DynamodbPrefixer} {d : Item}
    (hc : cleanTopB pfx d = true) (hw : hasWrapperKey d = false) :
    cleanItemB pfx d = true := by
  unfold cleanTopB at hc
  rw [hw] at hc
  simp only [Bool.and_eq_true] at hc
  exact hc.2

theorem trItems_rt {pfx : DynamodbPrefixer} {d : Item} (hd : distinctB pfx = true)
    (hc : cleanTopB pfx d = true) :
    ∀ v v', lookup d "Items" = some v → trItems pfx true v = some v' →
      trItems pfx false v' = some v := by
  intro v v' hl htr
  cases v with
  | list l =>
    simp only [trItems] at htr
    injection htr with htr
    rw [← htr]
    simp only [trItems]
    rw [mapProcessItems_roundtrip pfx l hd (cleanTopB_items hc hl)]
  | null => cases htr
  | bool _ => cases htr
  | int _ => cases htr
  | str _ => cases htr
  | dict _ => cases htr

theorem trItem_rt {pfx : DynamodbPrefixer} {d : Item} {k : String}
    (hd : distinctB pfx = true)
    (hck : ∀ i, lookup d k = some (.dict i) → cleanItemB pfx i = true) :
    ∀ v v', lookup d k = some v → trItem pfx true v = some v' →
      trItem pfx false v' = some v := by
  intro v v' hl htr
  cases v with
  | dict i =>
    simp only [trItem] at htr
    injection htr with htr
    rw [← htr]
    simp only [trItem]
    rw [processItem_roundtrip pfx i hd (hck i hl)]
  | null => cases htr
  | bool _ => cases htr
  | int _ => cases htr
  | str _ => cases htr
  | list _ => cases htr

theorem trItems_cl {pfx : DynamodbPrefixer} {d : Item}
    (hc : cleanTopB pfx d = true) :
    ∀ v, lookup d "Items" = some v →
      trItems pfx false v = none ∨ trItems pfx false v = some v := by
  intro v hl
  cases v with
  | list l =>
    right
    simp only [trItems]
    rw [mapProcessItems_rm_clean pfx l (cleanTopB_items hc hl)]
  | null => left; rfl
  | bool _ => left; rfl
  | int _ => left; rfl
  | str _ => left; rfl
  | dict _ => left; rfl

theorem trItem_cl {pfx : DynamodbPrefixer} {d : Item} {k : String}
    (hck : ∀ i, lookup d k = some (.dict i) → cleanItemB pfx i = true) :
    ∀ v, lookup d k = some v →
      trItem pfx false v = none ∨ trItem pfx false v = some v := by
  intro v hl
  cases v with
  | dict i =>
    right
    simp only [trItem]
    rw [processItem_rm_clean pfx i (hck i hl)]
  | null => left; rfl
  | bool _ => left; rfl
  | int _ => left; rfl
  | str _ => left; rfl
  | list _ => left; rfl

theorem processTop_add_idem (pfx : DynamodbPrefixer) (d : Item)
    (hd : distinctB pfx = true) :
    processTop pfx true (processTop pfx true d) = processTop pfx true d := by
  have hIsK : ("Items" : String) ≠ "Key" := by decide
  have hIsL : ("Items" : String) ≠ "LastEvaluatedKey" := by decide
  have hIsI : ("Items" : String) ≠ "Item" := by decide
  have hIK : ("Item" : String) ≠ "Key" := by decide
  have hIL : ("Item" : String) ≠ "LastEvaluatedKey" := by decide
  have hLK : ("LastEvaluatedKey" : String) ≠ "Key" := by decide
  unfold processTop
  rw [touch_comm (trItems pfx true) (trItem pfx true) _ hIsK]
  rw [touch_comm (trItem pfx true) (trItem pfx true) _ hIK]
  rw [touch_comm (trItem pfx true) (trItem pfx true) _ hLK]
  rw [touch_idem _ (trItem_idem pfx hd)]
  rw [touch_comm (trItems pfx true) (trItem pfx true) _ hIsL]
  rw [touch_comm (trItem pfx true) (trItem pfx true) _ hIL]
  rw [touch_idem _ (trItem_idem pfx hd)]
  rw [touch_comm (trItems pfx true) (trItem pfx true) _ hIsI]
  rw [touch_idem _ (trItem_idem pfx hd)]
  rw [touch_idem _ (trItems_idem pfx hd)]

theorem processTop_roundtrip (pfx : DynamodbPrefixer) (d : Item)
    (hd : distinctB pfx = true) (hc : cleanTopB pfx d = true) :
    processTop pfx false (processTop pfx true d) = d := by
  have hIsK : ("Items" : String) ≠ "Key" := by decide
  have hIsL : ("Items" : String) ≠ "LastEvaluatedKey" := by decide
  have hIsI : ("Items" : String) ≠ "Item" := by decide
  have hIK : ("Item" : String) ≠ "Key" := by decide
  have hIL : ("Item" : String) ≠ "LastEvaluatedKey" := by decide
  have hLK : ("LastEvaluatedKey" : String) ≠ "Key" := by decide
  unfold processTop
  rw [touch_comm (trItems pfx false) (trItem pfx true) _ hIsK]
  rw [touch_comm (trItems pfx false) (trItem pfx true) _ hIsL]
  rw [touch_comm (trItems pfx false) (trItem pfx true) _ hIsI]
  rw [touch_roundtrip d (trItems_rt hd hc) (fun v _ hx => trItems_none pfx v hx)]
  rw [touch_comm (trItem pfx false) (trItem pfx true) _ hIK]
  rw [touch_comm (trItem pfx false) (trItem pfx true) _ hIL]
  rw [touch_roundtrip d (trItem_rt hd (fun i hl => cleanTopB_item hc hl))
    (fun v _ hx => trItem_none pfx v hx)]
  rw [touch_comm (trItem pfx false) (trItem pfx true) _ hLK]
  rw [touch_roundtrip d (trItem_rt hd (fun i hl => cleanTopB_lek hc hl))
    (fun v _ hx => trItem_none pfx v hx)]
  rw [touch_roundtrip d (trItem_rt hd (fun i hl => cleanTopB_key hc hl))
    (fun v _ hx => trItem_none pfx v hx)]

theorem processTop_rm_clean (pfx : DynamodbPrefixer) (d : Item)
    (hc : cleanTopB pfx d = true) :
    processTop pfx false d = d := by
  unfold processTop
  rw [touch_clean d (trItems_cl hc)]
  rw [touch_clean d (trItem_cl (fun i hl => cleanTopB_item hc hl))]
  rw [touch_clean d (trItem_cl (fun i hl => cleanTopB_lek hc hl))]
  rw [touch_clean d (trItem_cl (fun i hl => cleanTopB_key hc hl))]

theorem process_dict_eq (pfx : DynamodbPrefixer) (b : Bool) (d : Item) :
    process pfx b (.dict d) =
      if hasWrapperKey (processTop pfx b d) then .dict (processTop pfx b d)
      else .dict (processItem pfx b (processTop pfx b d)) := rfl

theorem process_dict_add_idem (pfx : DynamodbPrefixer) (d : Item)
    (hd : distinctB pfx = true) :
    process pfx true (process pfx true (.dict d)) = process pfx true (.dict d) := by
  rw [process_dict_eq]
  cases hW : hasWrapperKey (processTop pfx true d) with
  | true =>
    simp only [hW, if_true]
    rw [process_dict_eq, processTop_add_idem pfx d hd, hW]
    simp
  | false =>
    simp only [hW, Bool.false_eq_true, if_false]
    have hWd : hasWrapperKey d = false := by
      rw [← hasWrapperKey_processTop pfx true d]
      exact hW
    have hWD : hasWrapperKey (processItem pfx true (processTop pfx true d)) = false := by
      rw [hasWrapperKey_processItem, hasWrapperKey_processTop]
      exact hWd
    rw [process_dict_eq, processTop_no_wrapper pfx true _ hWD, hWD]
    simp only [Bool.false_eq_true, if_false]
    exact congrArg Value.dict (processItem_add_idem pfx _ hd)

theorem process_dict_roundtrip (pfx : DynamodbPrefixer) (d : Item)
    (hd : distinctB pfx = true) (hc : cleanTopB pfx d = true) :
    process pfx false (process pfx true (.dict d)) = .dict d := by
  rw [process_dict_eq]
  cases hW : hasWrapperKey (processTop pfx true d) with
  | true =>
    simp only [hW, if_true]
    rw [process_dict_eq, processTop_roundtrip pfx d hd hc]
    have hWd : hasWrapperKey d = true := by
      rw [← hasWrapperKey_processTop pfx true d]
      exact hW
    rw [hWd]
    simp
  | false =>
    have hWd : hasWrapperKey d = false := by
      rw [← hasWrapperKey_processTop pfx true d]
      exact hW
    have hT : processTop pfx true d = d := processTop_no_wrapper pfx true d hWd
    simp only [hW, Bool.false_eq_true, if_false]
    rw [hT, process_dict_eq]
    have hWD : hasWrapperKey (processItem pfx true d) = false := by
      rw [hasWrapperKey_processItem]
      exact hWd
    rw [processTop_no_wrapper pfx false _ hWD, hWD]
    simp only [Bool.false_eq_true, if_false]
    exact congrArg Value.dict (processItem_roundtrip pfx d hd (cleanTopB_self hc hWd))

theorem process_dict_rm_clean (pfx : DynamodbPrefixer) (d : Item)
    (hc : cleanTopB pfx d = true) :
    process pfx false (.dict d) = .dict d := by
  rw [process_dict_eq, processTop_rm_clean pfx d hc]
  cases hWd : hasWrapperKey d with
  | true => simp [hWd]
  | false =>
    simp only [hWd, Bool.false_eq_true, if_false]
    exact congrArg Value.dict (processItem_rm_clean pfx d (cleanTopB_self hc hWd))

theorem process_dict_itemOf (pfx : DynamodbPrefixer) (b : Bool) (d : Item) :
    process pfx b (.dict d) = .dict (itemOf (process pfx b (.dict d))) := by
  rw [process_dict_eq]
  by_cases h : hasWrapperKey (processTop pfx b d) = true
  · rw [if_pos h]
    rfl
  · rw [if_neg h]
    rfl

theorem cleanForResponse_updateStored (pfx : DynamodbPrefixer) (payload : Item) :
    cleanForResponse pfx (updateStored pfx payload) = updateResponse pfx payload := by
  have h1 := process_dict_itemOf pfx true payload
  generalize hX : itemOf (process pfx true (.dict payload)) = X at h1
  unfold cleanForResponse updateStored updateResponse prefixAdd prefixRemove
  simp only [h1]
  have h2 := process_dict_itemOf pfx false X
  generalize hY : itemOf (process pfx false (.dict X)) = Y at h2
  simp only [h2]

theorem optGet_some (i : Item) (k : String) : optGet i (some k) = getNone i k := rfl

theorem should_use_latest_none_left (a : DynamodbAdapter) (parse : String → Option Int)
    (nv : Option Value) : should_use_latest a parse none nv = .ok false := by
  unfold should_use_latest
  by_cases h : a.idempotence_use_latest = false ∨ keyTruthy a.idempotence_key = false
  · rw [if_pos h]
  · rw [if_neg h, if_pos (Or.inl rfl)]

theorem should_use_latest_none_right (a : DynamodbAdapter) (parse : String → Option Int)
    (ov : Option Value) : should_use_latest a parse ov none = .ok false := by
  unfold should_use_latest
  by_cases h : a.idempotence_use_latest = false ∨ keyTruthy a.idempotence_key = false
  · rw [if_pos h]
  · rw [if_neg h, if_pos (Or.inr rfl)]

theorem should_use_latest_some (a : DynamodbAdapter) (parse : String → Option Int)
    (o n : Value) (hul : a.idempotence_use_latest = true)
    (hkt : keyTruthy a.idempotence_key = true) :
    should_use_latest a parse (some o) (some n) =
      (match parse (pyStr o), parse (pyStr n) with
        | some od, some nd => .ok (decide (od > nd))
        | _, _ => .error .invalidIdempotenceValue) := by
  unfold should_use_latest
  have h1 : ¬(a.idempotence_use_latest = false ∨ keyTruthy a.idempotence_key = false) := by
    simp [hul, hkt]
  have h2 : ¬((some o : Option Value) = none ∨ (some n : Option Value) = none) := by
    simp
  rw [if_neg h1, if_neg h2]

theorem build_none_guard {a : DynamodbAdapter} {k : String} (d : Item)
    (hk : a.idempotence_key = some k) (hk' : k ≠ "") :
    build_put_kwargs a none d =
      if a.raise_idempotence_error then .error (.missingIdempotenceValue k)
      else .ok ⟨d, none⟩ := by
  unfold build_put_kwargs
  rw [hk]
  simp [hk']

theorem build_some_guard {a : DynamodbAdapter} {k : String} (d : Item) (o : Value)
    (hk : a.idempotence_key = some k) (hk' : k ≠ "") :
    build_put_kwargs a (some o) d =
      if some o ≠ getNone d k ∧ a.raise_idempotence_error = true then
        .error .idempotenceConflict
      else .ok ⟨d, some (.attrEq k o)⟩ := by
  unfold build_put_kwargs
  rw [hk]
  simp [hk']

theorem build_not_invalid (a : DynamodbAdapter) (ov : Option Value) (d : Item) :
    build_put_kwargs a ov d ≠ .error .invalidIdempotenceValue := by
  intro h
  unfold build_put_kwargs at h
  split at h
  · simp at h
  · split at h
    · simp at h
    · split at h
      · split at h <;> simp at h
      · split at h <;> simp at h

theorem update_empty (a : DynamodbAdapter) (pfx : DynamodbPrefixer)
    (parse : String → Option Int) (mergeFn : Item → Item → Item)
    (schemaMap : Item → Item) (sinkOk : Bool) (callData : Item) :
    update a pfx parse mergeFn schemaMap sinkOk [] callData = .error .noDataFound := by
  unfold update
  rw [if_pos rfl]

theorem update_of_sul_error {a : DynamodbAdapter} {pfx : DynamodbPrefixer}
    {parse : String → Option Int} {mergeFn : Item → Item → Item}
    {schemaMap : Item → Item} {sinkOk : Bool} {original_data callData : Item}
    {e : DdbError} (h0 : ¬(original_data = []))
    (hsul : should_use_latest a parse (optGet original_data a.idempotence_key)
      (optGet (updateResponse pfx (schemaMap (mergeFn original_data callData)))
        a.idempotence_key) = .error e) :
    update a pfx parse mergeFn schemaMap sinkOk original_data callData = .error e := by
  unfold update
  rw [if_neg h0, hsul]

theorem update_of_sul_true {a : DynamodbAdapter} {pfx : DynamodbPrefixer}
    {parse : String → Option Int} {mergeFn : Item → Item → Item}
    {schemaMap : Item → Item} {sinkOk : Bool} {original_data callData : Item}
    (h0 : ¬(original_data = []))
    (hsul : should_use_latest a parse (optGet original_data a.idempotence_key)
      (optGet (updateResponse pfx (schemaMap (mergeFn original_data callData)))
        a.idempotence_key) = .ok true) :
    update a pfx parse mergeFn schemaMap sinkOk original_data callData =
      .ok ⟨cleanForResponse pfx original_data, [], []⟩ := by
  unfold update
  rw [if_neg h0, hsul]

theorem update_of_sul_false {a : DynamodbAdapter} {pfx : DynamodbPrefixer}
    {parse : String → Option Int} {mergeFn : Item → Item → Item}
    {schemaMap : Item → Item} {sinkOk : Bool} {original_data callData : Item}
    (h0 : ¬(original_data = []))
    (hsul : should_use_latest a parse (optGet original_data a.idempotence_key)
      (optGet (updateResponse pfx (schemaMap (mergeFn original_data callData)))
        a.idempotence_key) = .ok false) :
    update a pfx parse mergeFn schemaMap sinkOk original_data callData =
      (match build_put_kwargs a (optGet original_data a.idempotence_key)
          (updateStored pfx (schemaMap (mergeFn original_data callData))) with
        | .error e => .error e
        | .ok pk =>
            .ok ⟨cleanForResponse pfx (updateStored pfx (schemaMap (mergeFn original_data callData))),
              [pk],
              [publishSink sinkOk "update"
                (cleanForResponse pfx (updateStored pfx (schemaMap (mergeFn original_data callData))))]⟩) := by
  unfold update
  rw [if_neg h0, hsul]

theorem cleanKeyB_nil (kOpt pOpt : Option String) : cleanKeyB [] kOpt pOpt = true := by
  cases kOpt with
  | none => rfl
  | some k =>
    cases pOpt with
    | none => rfl
    | some p => by_cases h : k = "" ∨ p = "" <;> simp [cleanKeyB, h, lookup]

theorem cleanTopB_nil (pfx : DynamodbPrefixer) : cleanTopB pfx [] = true := by
  unfold cleanTopB hasWrapperKey containsKey
  simp [lookup, cleanItemB, cleanKeyB_nil]

theorem prefixRemove_nil_dict (pfx : DynamodbPrefixer) :
    prefixRemove pfx (.dict []) = .dict [] :=
  process_dict_rm_clean pfx [] (cleanTopB_nil pfx)

theorem cleanForResponse_clean {pfx : DynamodbPrefixer} {i : Item}
    (hc : cleanTopB pfx i = true) : cleanForResponse pfx i = i := by
  unfold cleanForResponse
  rw [show prefixRemove pfx (.dict i) = .dict i from process_dict_rm_clean pfx i hc]

/-- C5 counterexample: with hash field `id` and prefix `p`, the record
`{id: "pq"}` already starts with the prefix, so `add_prefix` is a no-op but
`remove_prefix` strips the `p`, and the round-trip does not restore the
record. -/
theorem c5_roundtrip_counterexample :
    prefixRemove ⟨some "id", some "p", none, none⟩
        (prefixAdd ⟨some "id", some "p", none, none⟩ (.dict [("id", Value.str "pq")])) ≠
      .dict [("id", Value.str "pq")] := by
  decide

/-- C5 amended: for every record `R` and every prefix configuration whose
active hash and range pairs target distinct fields, removing the prefixes
after adding them restores `R` exactly, provided `R` is clean of the
configured prefixes (no processed string value already starts with its
prefix). -/
theorem c5_roundtrip_amended (pfx : DynamodbPrefixer) (R : Item)
    (hd : distinctB pfx = true) (hc : cleanTopB pfx R = true) :
    prefixRemove pfx (prefixAdd pfx (.dict R)) = .dict R :=
  process_dict_roundtrip pfx R hd hc

/-- C5 witness: the tenant-prefix configuration of the repository's tests on
its fixture record. -/
theorem c5_roundtrip_witness :
    distinctB pfxTenant = true ∧ cleanTopB pfxTenant origModified = true ∧
      prefixRemove pfxTenant (prefixAdd pfxTenant (.dict origModified)) = .dict origModified :=
  ⟨by decide, by decide,
    c5_roundtrip_amended pfxTenant origModified (by decide) (by decide)⟩

/-- C6 counterexample: with hash field `k` and prefix `a`, removing the
prefix from `{k: "aax"}` yields `{k: "ax"}`, and removing it again strips a
second `a` — `remove_prefix` is not idempotent. -/
theorem c6_idem_counterexample :
    prefixRemove ⟨some "k", some "a", none, none⟩
        (prefixRemove ⟨some "k", some "a", none, none⟩ (.dict [("k", Value.str "aax")])) ≠
      prefixRemove ⟨some "k", some "a", none, none⟩ (.dict [("k", Value.str "aax")]) := by
  decide

/-- C6 amended: for configurations whose active pairs target distinct
fields, `add_prefix` is idempotent on every record; `remove_prefix` is
idempotent on a record whose once-stripped form is clean of the prefixes
(which fails exactly on values that still start with the prefix after one
strip, such as doubled prefixes). -/
theorem c6_idem_amended (pfx : DynamodbPrefixer) (R : Item)
    (hd : distinctB pfx = true) :
    prefixAdd pfx (prefixAdd pfx (.dict R)) = prefixAdd pfx (.dict R) ∧
      (cleanTopB pfx (itemOf (prefixRemove pfx (.dict R))) = true →
        prefixRemove pfx (prefixRemove pfx (.dict R)) = prefixRemove pfx (.dict R)) := by
  refine ⟨process_dict_add_idem pfx R hd, fun hcl => ?_⟩
  have h1 : prefixRemove pfx (.dict R) = .dict (itemOf (prefixRemove pfx (.dict R))) :=
    process_dict_itemOf pfx false R
  rw [h1]
  exact process_dict_rm_clean pfx _ hcl

/-- C6 witness: both idempotence equations on the tests' tenant prefix
configuration and fixture record. -/
theorem c6_idem_witness :
    prefixAdd pfxTenant (prefixAdd pfxTenant (.dict origModified)) =
        prefixAdd pfxTenant (.dict origModified) ∧
      prefixRemove pfxTenant (prefixRemove pfxTenant (.dict origModified)) =
        prefixRemove pfxTenant (.dict origModified) :=
  ⟨(c6_idem_amended pfxTenant origModified (by decide)).1,
    (c6_idem_amended pfxTenant origModified (by decide)).2 (by decide)⟩

/-- C9: a `get` whose `get_item` response has no `Item` entry returns the
empty mapping — no error and no null. -/
theorem c9_get_missing_item (pfx : DynamodbPrefixer) (response : Item)
    (h : lookup response "Item" = none) : adapterGet pfx response = .dict [] := by
  have h0 : getItemOrEmpty response = .dict [] := by
    unfold getItemOrEmpty
    rw [h]
  unfold adapterGet
  rw [h0, prefixRemove_nil_dict]

/-- C9 witness: a bare metadata-only response under the tenant prefix
configuration. -/
theorem c9_get_missing_item_witness :
    lookup [("ResponseMetadata", Value.dict [])] "Item" = none ∧
      adapterGet pfxTenant [("ResponseMetadata", Value.dict [])] = .dict [] :=
  ⟨rfl, c9_get_missing_item pfxTenant [("ResponseMetadata", Value.dict [])] rfl⟩

/-- C8: `batch_insert` rejects non-list data with `BatchItemException`
before producing any chunk, and a 30-item list at the default batch size 25
is written as exactly two chunks — the first 25 items, then the remaining 5,
in the original order. -/
theorem c8_batch_insert_contract (pfx : DynamodbPrefixer) (schemaMap : Value → Value) :
    (∀ v : Value, (∀ l, v ≠ .list l) → batch_insert pfx schemaMap v 25 = .error .batchItem) ∧
      (∀ items : List Value, items.length = 30 →
        batch_insert pfx schemaMap (.list items) 25 =
          .ok [mapProcessItems pfx true ((items.map schemaMap).take 25),
            mapProcessItems pfx true ((items.map schemaMap).drop 25)]) := by
  constructor
  · intro v hv
    cases v with
    | list l => exact absurd rfl (hv l)
    | null => rfl
    | bool _ => rfl
    | int _ => rfl
    | str _ => rfl
    | dict _ => rfl
  · intro items hlen
    simp only [batch_insert]
    have hm : (items.map schemaMap).length = 30 := by rw [List.length_map, hlen]
    have hchunk : chunked 25 (items.map schemaMap) =
        [(items.map schemaMap).take 25, (items.map schemaMap).drop 25] := by
      unfold chunked
      rw [hm]
      have h2 : (30 + 25 - 1) / 25 = 2 := by norm_num
      rw [h2]
      have hr : List.range 2 = [0, 1] := rfl
      rw [hr]
      simp only [List.map_cons, List.map_nil, Nat.zero_mul, Nat.one_mul, List.drop_zero]
      have hdl : (List.drop 25 (List.map schemaMap items)).length ≤ 25 := by
        rw [List.length_drop, hm]
        norm_num
      rw [List.take_of_length_le hdl]
    rw [hchunk]
    simp only [List.map_cons, List.map_nil]
    rfl

/-- C8 witness: a tuple-like non-list is rejected, and 30 concrete items are
split into the chunks 25 and 5. -/
theorem c8_batch_insert_witness :
    batch_insert pfxNone id (.int 0) 25 = .error .batchItem ∧
      batch_insert pfxNone id (.list items30) 25 =
        .ok [mapProcessItems pfxNone true ((items30.map id).take 25),
          mapProcessItems pfxNone true ((items30.map id).drop 25)] :=
  ⟨(c8_batch_insert_contract pfxNone id).1 (.int 0) (fun l h => Value.noConfusion h),
    (c8_batch_insert_contract pfxNone id).2 items30 (by decide)⟩

/-- C1 counterexample: with the idempotence key on the prefixed hash field,
the original's guard value O (`"abc123"`) equals the merged record's value N
(`"abc123"`), `raiseOnMismatch` is set and the use-latest skip does not
apply, yet the update fails with the conflict error, because the code
compares O against the prefixed item to be stored (`"tenant#abc123"`). -/
theorem c1_guard_counterexample :
    getNone origModified "test_id" = some (.str "abc123") ∧
      getNone (updateResponse pfxTenant (mergeRecords origModified dataModified)) "test_id" =
        some (.str "abc123") ∧
      should_use_latest adapterKeyOnHash isoDateParse (some (.str "abc123"))
        (some (.str "abc123")) = .ok false ∧
      adapterKeyOnHash.raise_idempotence_error = true ∧
      update adapterKeyOnHash pfxTenant isoDateParse mergeRecords id true
        origModified dataModified = .error .idempotenceConflict := by
  refine ⟨rfl, by decide, rfl, rfl, rfl⟩

/-- C1 amended: for every update with an idempotence key configured whose
original guard value O is present and whose use-latest check returns false:
if `raiseOnMismatch` is set and O differs from the guard value of the
prefixed item to be stored, the update fails with the idempotence-conflict
error; otherwise the write is issued with the conditional guard
`Attr(key).eq(O)` and the returned record is the prefix-stripped stored item
(carrying the merged value N). -/
theorem c1_guarded_update_amended (a : DynamodbAdapter) (pfx : DynamodbPrefixer)
    (parse : String → Option Int) (mergeFn : Item → Item → Item)
    (schemaMap : Item → Item) (sinkOk : Bool) (original callData : Item)
    (k : String) (o : Value)
    (h0 : ¬(original = []))
    (hk : a.idempotence_key = some k) (hk' : k ≠ "")
    (hO : getNone original k = some o)
    (hsul : should_use_latest a parse (some o)
      (getNone (updateResponse pfx (schemaMap (mergeFn original callData))) k) = .ok false) :
    (a.raise_idempotence_error = true ∧
        some o ≠ getNone (updateStored pfx (schemaMap (mergeFn original callData))) k →
      update a pfx parse mergeFn schemaMap sinkOk original callData =
        .error .idempotenceConflict) ∧
    (a.raise_idempotence_error = false ∨
        some o = getNone (updateStored pfx (schemaMap (mergeFn original callData))) k →
      update a pfx parse mergeFn schemaMap sinkOk original callData =
        .ok ⟨updateResponse pfx (schemaMap (mergeFn original callData)),
          [⟨updateStored pfx (schemaMap (mergeFn original callData)), some (.attrEq k o)⟩],
          [publishSink sinkOk "update"
            (updateResponse pfx (schemaMap (mergeFn original callData)))]⟩) := by
  have hov : optGet original a.idempotence_key = some o := by
    rw [hk, optGet_some, hO]
  have hsul' : should_use_latest a parse (optGet original a.idempotence_key)
      (optGet (updateResponse pfx (schemaMap (mergeFn original callData)))
        a.idempotence_key) = .ok false := by
    rw [hov, hk, optGet_some]
    exact hsul
  have hupd := @update_of_sul_false a pfx parse mergeFn schemaMap sinkOk original callData h0 hsul'
  rw [hov, build_some_guard (updateStored pfx (schemaMap (mergeFn original callData))) o hk hk']
    at hupd
  constructor
  · rintro ⟨hr, hne⟩
    rw [if_pos ⟨hne, hr⟩] at hupd
    exact hupd
  · intro hr2
    have hcond : ¬(some o ≠ getNone (updateStored pfx (schemaMap (mergeFn original callData))) k ∧
        a.raise_idempotence_error = true) := by
      rintro ⟨hne, hrt⟩
      rcases hr2 with h | h
      · rw [h] at hrt
        cases hrt
      · exact hne h
    rw [if_neg hcond] at hupd
    rw [hupd]
    simp only [cleanForResponse_updateStored]

/-- C1 witness: the repository's guarded-update test — stored `modified`
2020-10-05, caller submits 2020-10-06, no prefixes, no raise: the write goes
out guarded on the old value and the response carries the new one. -/
theorem c1_guarded_update_witness :
    update adapterModified pfxNone isoDateParse mergeRecords id true
        origModified dataModified =
      .ok ⟨updateResponse pfxNone (id (mergeRecords origModified dataModified)),
        [⟨updateStored pfxNone (id (mergeRecords origModified dataModified)),
          some (.attrEq "modified" (.str "2020-10-05"))⟩],
        [publishSink true "update"
          (updateResponse pfxNone (id (mergeRecords origModified dataModified)))]⟩ :=
  (c1_guarded_update_amended adapterModified pfxNone isoDateParse mergeRecords id true
      origModified dataModified "modified" (.str "2020-10-05")
      (by decide) rfl (by decide) rfl rfl).2 (Or.inl rfl)

/-- C2 counterexample: with `use_latest` enabled and a stored-newer guard
value, the write is skipped, but the returned record is the original passed
once more through prefix removal — for a fetched record that still carries
the tenant prefix, the returned record differs from the original. -/
theorem c2_use_latest_counterexample :
    update adapterUseLatest pfxTenant isoDateParse mergeRecords id true
        origDoublePrefixed dataOlder =
      .ok ⟨[("test_id", .str "abc"), ("modified", .str "2020-10-06")], [], []⟩ ∧
      ([("test_id", Value.str "abc"), ("modified", Value.str "2020-10-06")] : Item) ≠
        origDoublePrefixed :=
  ⟨rfl, by decide⟩

/-- C2 amended: when the use-latest check returns true, the write is skipped
(no put, no change event, no error) and the update returns the original
record passed through prefix removal — identical to the original whenever
the original is clean of the configured prefixes (in particular whenever no
prefix is configured). -/
theorem c2_use_latest_amended (a : DynamodbAdapter) (pfx : DynamodbPrefixer)
    (parse : String → Option Int) (mergeFn : Item → Item → Item)
    (schemaMap : Item → Item) (sinkOk : Bool) (original callData : Item)
    (h0 : ¬(original = []))
    (hsul : should_use_latest a parse (optGet original a.idempotence_key)
      (optGet (updateResponse pfx (schemaMap (mergeFn original callData)))
        a.idempotence_key) = .ok true) :
    update a pfx parse mergeFn schemaMap sinkOk original callData =
        .ok ⟨cleanForResponse pfx original, [], []⟩ ∧
      (cleanTopB pfx original = true →
        update a pfx parse mergeFn schemaMap sinkOk original callData =
          .ok ⟨original, [], []⟩) := by
  refine ⟨update_of_sul_true h0 hsul, fun hc => ?_⟩
  rw [update_of_sul_true h0 hsul, cleanForResponse_clean hc]

/-- C2 witness: the spec's own example without prefixes — stored
`modified` 2020-10-06, incoming 2020-10-05: the stored record comes back
unchanged with no put and no event. -/
theorem c2_use_latest_witness :
    update adapterUseLatest pfxNone isoDateParse mergeRecords id true
        origNewer dataOlder = .ok ⟨origNewer, [], []⟩ :=
  (c2_use_latest_amended adapterUseLatest pfxNone isoDateParse mergeRecords id true
      origNewer dataOlder (by decide) rfl).2 (by decide)

/-- C3 counterexample: `use_latest` enabled, key `modified`, the original
lacks the guard value (O is null) while the merged record's value N is the
non-timestamp `"garbage"`: the update succeeds instead of failing with the
invalid-idempotence-value error, because the code skips parsing entirely
when either value is null. -/
theorem c3_invalid_counterexample :
    adapterUseLatest.idempotence_use_latest = true ∧
      optGet origNoModified adapterUseLatest.idempotence_key = none ∧
      optGet (updateResponse pfxNone (mergeRecords origNoModified dataGarbage))
        adapterUseLatest.idempotence_key = some (.str "garbage") ∧
      isoDateParse (pyStr (.str "garbage")) = none ∧
      update adapterUseLatest pfxNone isoDateParse mergeRecords id true
          origNoModified dataGarbage =
        .ok ⟨[("test_id", .str "abc123"), ("modified", .str "garbage")],
          [⟨[("test_id", .str "abc123"), ("modified", .str "garbage")], none⟩],
          [⟨"update", [("test_id", .str "abc123"), ("modified", .str "garbage")], true⟩]⟩ := by
  refine ⟨rfl, rfl, by decide, rfl, rfl⟩

/-- C3 amended: with `use_latest` enabled and the idempotence key truthy,
the update fails with the invalid-idempotence-value error exactly when both
the original's guard value O and the merged record's value N are non-null
and at least one of them does not parse as a timestamp. -/
theorem c3_invalid_amended (a : DynamodbAdapter) (pfx : DynamodbPrefixer)
    (parse : String → Option Int) (mergeFn : Item → Item → Item)
    (schemaMap : Item → Item) (sinkOk : Bool) (original callData : Item)
    (h0 : ¬(original = []))
    (hul : a.idempotence_use_latest = true)
    (hkt : keyTruthy a.idempotence_key = true) :
    update a pfx parse mergeFn schemaMap sinkOk original callData =
        .error .invalidIdempotenceValue ↔
      (∃ o n, optGet original a.idempotence_key = some o ∧
        optGet (updateResponse pfx (schemaMap (mergeFn original callData)))
          a.idempotence_key = some n ∧
        (parse (pyStr o) = none ∨ parse (pyStr n) = none)) := by
  cases hO : optGet original a.idempotence_key with
  | none =>
    have hupd := @update_of_sul_false a pfx parse mergeFn schemaMap sinkOk original callData h0
      (by rw [hO]; exact should_use_latest_none_left a parse _)
    constructor
    · intro h
      rw [hupd] at h
      cases hb : build_put_kwargs a (optGet original a.idempotence_key)
          (updateStored pfx (schemaMap (mergeFn original callData))) with
      | error e =>
        rw [hb] at h
        simp only [] at h
        injection h with he
        rw [he] at hb
        exact absurd hb (build_not_invalid a _ _)
      | ok pk =>
        rw [hb] at h
        cases h
    · rintro ⟨o, n, ho, hn, hp⟩
      exact Option.noConfusion ho
  | some o =>
    cases hN : optGet (updateResponse pfx (schemaMap (mergeFn original callData)))
        a.idempotence_key with
    | none =>
      have hupd := @update_of_sul_false a pfx parse mergeFn schemaMap sinkOk original callData h0
        (by rw [hN]; exact should_use_latest_none_right a parse _)
      constructor
      · intro h
        rw [hupd] at h
        cases hb : build_put_kwargs a (optGet original a.idempotence_key)
            (updateStored pfx (schemaMap (mergeFn original callData))) with
        | error e =>
          rw [hb] at h
          simp only [] at h
          injection h with he
          rw [he] at hb
          exact absurd hb (build_not_invalid a _ _)
        | ok pk =>
          rw [hb] at h
          cases h
      · rintro ⟨o', n, ho, hn, hp⟩
        exact Option.noConfusion hn
    | some n =>
      have hsul0 : should_use_latest a parse (optGet original a.idempotence_key)
          (optGet (updateResponse pfx (schemaMap (mergeFn original callData)))
            a.idempotence_key) =
          (match parse (pyStr o), parse (pyStr n) with
            | some od, some nd => .ok (decide (od > nd))
            | _, _ => .error .invalidIdempotenceValue) := by
        rw [hO, hN]
        exact should_use_latest_some a parse o n hul hkt
      cases hp1 : parse (pyStr o) with
      | none =>
        have hsul : should_use_latest a parse (optGet original a.idempotence_key)
            (optGet (updateResponse pfx (schemaMap (mergeFn original callData)))
              a.idempotence_key) = .error .invalidIdempotenceValue := by
          rw [hsul0, hp1]
        constructor
        · intro _
          exact ⟨o, n, rfl, rfl, Or.inl hp1⟩
        · intro _
          exact update_of_sul_error h0 hsul
      | some od =>
        cases hp2 : parse (pyStr n) with
        | none =>
          have hsul : should_use_latest a parse (optGet original a.idempotence_key)
              (optGet (updateResponse pfx (schemaMap (mergeFn original callData)))
                a.idempotence_key) = .error .invalidIdempotenceValue := by
            rw [hsul0, hp1, hp2]
          constructor
          · intro _
            exact ⟨o, n, rfl, rfl, Or.inr hp2⟩
          · intro _
            exact update_of_sul_error h0 hsul
        | some nd =>
          have hsul : should_use_latest a parse (optGet original a.idempotence_key)
              (optGet (updateResponse pfx (schemaMap (mergeFn original callData)))
                a.idempotence_key) = .ok (decide (od > nd)) := by
            rw [hsul0, hp1, hp2]
          constructor
          · intro h
            cases hdec : decide (od > nd) with
            | true =>
              rw [hdec] at hsul
              rw [update_of_sul_true h0 hsul] at h
              cases h
            | false =>
              rw [hdec] at hsul
              rw [@update_of_sul_false a pfx parse mergeFn schemaMap sinkOk original callData
                h0 hsul] at h
              cases hb : build_put_kwargs a (optGet original a.idempotence_key)
                  (updateStored pfx (schemaMap (mergeFn original callData))) with
              | error e =>
                rw [hb] at h
                simp only [] at h
                injection h with he
                rw [he] at hb
                exact absurd hb (build_not_invalid a _ _)
              | ok pk =>
                rw [hb] at h
                cases h
          · rintro ⟨o', n', ho', hn', hp'⟩
            injection ho' with ho'
            injection hn' with hn'
            rw [← ho', ← hn'] at hp'
            rcases hp' with hp' | hp'
            · rw [hp1] at hp'
              cases hp'
            · rw [hp2] at hp'
              cases hp'

/-- C3 witness: stored `modified` is the non-timestamp `"garbage"` and the
incoming one parses — the update fails with the invalid-value error. -/
theorem c3_invalid_witness :
    update adapterUseLatest pfxNone isoDateParse mergeRecords id true
        origGarbage dataOlder = .error .invalidIdempotenceValue :=
  (c3_invalid_amended adapterUseLatest pfxNone isoDateParse mergeRecords id true
      origGarbage dataOlder (by decide) rfl rfl).2
    ⟨.str "garbage", .str "2020-10-05", rfl, rfl, Or.inl rfl⟩

/-- C4: with an idempotence key configured and the original lacking the
guard value: if `raiseOnMismatch` is set the update fails with the
missing-idempotence-value error before any write; otherwise the write
proceeds with no conditional guard attached. -/
theorem c4_missing_value (a : DynamodbAdapter) (pfx : DynamodbPrefixer)
    (parse : String → Option Int) (mergeFn : Item → Item → Item)
    (schemaMap : Item → Item) (sinkOk : Bool) (original callData : Item)
    (k : String)
    (h0 : ¬(original = []))
    (hk : a.idempotence_key = some k) (hk' : k ≠ "")
    (hO : getNone original k = none) :
    (a.raise_idempotence_error = true →
      update a pfx parse mergeFn schemaMap sinkOk original callData =
        .error (.missingIdempotenceValue k)) ∧
    (a.raise_idempotence_error = false →
      update a pfx parse mergeFn schemaMap sinkOk original callData =
        .ok ⟨cleanForResponse pfx (updateStored pfx (schemaMap (mergeFn original callData))),
          [⟨updateStored pfx (schemaMap (mergeFn original callData)), none⟩],
          [publishSink sinkOk "update"
            (cleanForResponse pfx (updateStored pfx (schemaMap (mergeFn original callData))))]⟩) := by
  have hov : optGet original a.idempotence_key = none := by
    rw [hk, optGet_some, hO]
  have hupd := @update_of_sul_false a pfx parse mergeFn schemaMap sinkOk original callData h0
    (by rw [hov]; exact should_use_latest_none_left a parse _)
  rw [hov, build_none_guard (updateStored pfx (schemaMap (mergeFn original callData))) hk hk']
    at hupd
  constructor
  · intro hr
    simp only [hr, if_true] at hupd
    exact hupd
  · intro hr
    simp only [hr, Bool.false_eq_true, if_false] at hupd
    exact hupd

/-- C4 witness: the repository's missing-guard test — key `missing_key`
configured with raise set, the stored record lacks it, and the update fails
with the missing-value error. -/
theorem c4_missing_value_witness :
    update adapterMissingKey pfxNone isoDateParse mergeRecords id true
        origModified dataModified = .error (.missingIdempotenceValue "missing_key") :=
  (c4_missing_value adapterMissingKey pfxNone isoDateParse mergeRecords id true
      origModified dataModified "missing_key" (by decide) rfl (by decide) rfl).1 rfl

/-- C7: a failing notification sink does not fail the update — because the
sink is modelled from the spec as best-effort (its publisher is not part of
the modelled sources, and spec section 6 states its errors do not propagate),
an update that succeeds with a working sink returns the same record and
issues the same writes with a failing sink; only the delivery flags of the
recorded change events differ.  In particular the committed write is never
rolled back. -/
theorem c7_sink_isolation (a : DynamodbAdapter) (pfx : DynamodbPrefixer)
    (parse : String → Option Int) (mergeFn : Item → Item → Item)
    (schemaMap : Item → Item) (original callData : Item) (r : UpdateOutcome)
    (h : update a pfx parse mergeFn schemaMap true original callData = .ok r) :
    update a pfx parse mergeFn schemaMap false original callData =
      .ok ⟨r.result, r.puts, r.events.map (fun e => ⟨e.op, e.record, false⟩)⟩ := by
  by_cases h0 : original = []
  · rw [h0, update_empty] at h
    cases h
  · cases hsul : should_use_latest a parse (optGet original a.idempotence_key)
        (optGet (updateResponse pfx (schemaMap (mergeFn original callData)))
          a.idempotence_key) with
    | error e =>
      rw [update_of_sul_error h0 hsul] at h
      cases h
    | ok b =>
      cases b with
      | true =>
        rw [update_of_sul_true h0 hsul] at h
        injection h with h
        rw [update_of_sul_true h0 hsul, ← h]
        rfl
      | false =>
        have hupd1 := @update_of_sul_false a pfx parse mergeFn schemaMap true original callData
          h0 hsul
        have hupd2 := @update_of_sul_false a pfx parse mergeFn schemaMap false original callData
          h0 hsul
        cases hb : build_put_kwargs a (optGet original a.idempotence_key)
            (updateStored pfx (schemaMap (mergeFn original callData))) with
        | error e =>
          simp only [hb] at hupd1
          rw [hupd1] at h
          cases h
        | ok pk =>
          simp only [hb] at hupd1 hupd2
          rw [hupd1] at h
          injection h with h
          rw [hupd2, ← h]
          rfl

/-- C7 witness: the guarded update of the tests, rerun with a failing sink,
still returns the written record and the same conditional put; only the
event's delivery flag turns false. -/
theorem c7_sink_isolation_witness :
    update adapterModified pfxNone isoDateParse mergeRecords id false
        origModified dataModified =
      .ok ⟨updOutcomeWit.result, updOutcomeWit.puts,
        updOutcomeWit.events.map (fun e => ⟨e.op, e.record, false⟩)⟩ :=
  c7_sink_isolation adapterModified pfxNone isoDateParse mergeRecords id
    origModified dataModified updOutcomeWit rfl

/-- C10: every successful update hands exactly as many change events to the
notification sink as it issued writes — in particular the use-latest skip
path, which issues no write, publishes nothing. -/
theorem c10_notify_only_on_write (a : DynamodbAdapter) (pfx : DynamodbPrefixer)
    (parse : String → Option Int) (mergeFn : Item → Item → Item)
    (schemaMap : Item → Item) (sinkOk : Bool) (original callData : Item)
    (r : UpdateOutcome)
    (h : update a pfx parse mergeFn schemaMap sinkOk original callData = .ok r) :
    r.events.length = r.puts.length := by
  by_cases h0 : original = []
  · rw [h0, update_empty] at h
    cases h
  · cases hsul : should_use_latest a parse (optGet original a.idempotence_key)
        (optGet (updateResponse pfx (schemaMap (mergeFn original callData)))
          a.idempotence_key) with
    | error e =>
      rw [update_of_sul_error h0 hsul] at h
      cases h
    | ok b =>
      cases b with
      | true =>
        rw [update_of_sul_true h0 hsul] at h
        injection h with h
        rw [← h]
        rfl
      | false =>
        have hupd := @update_of_sul_false a pfx parse mergeFn schemaMap sinkOk original callData
          h0 hsul
        cases hb : build_put_kwargs a (optGet original a.idempotence_key)
            (updateStored pfx (schemaMap (mergeFn original callData))) with
        | error e =>
          simp only [hb] at hupd
          rw [hupd] at h
          cases h
        | ok pk =>
          simp only [hb] at hupd
          rw [hupd] at h
          injection h with h
          rw [← h]
          rfl

/-- C10 witness: the skip path of the use-latest update publishes no event
and issues no put. -/
theorem c10_notify_only_on_write_witness :
    (⟨origNewer, [], []⟩ : UpdateOutcome).events.length =
      (⟨origNewer, [], []⟩ : UpdateOutcome).puts.length :=
  c10_notify_only_on_write adapterUseLatest pfxNone isoDateParse mergeRecords id true
    origNewer dataOlder ⟨origNewer, [], []⟩ rfl

end DaplugDdb
